import Mathlib

/-!
# CarCrash: the intersection simulation of `mylab9.c`

A shallow embedding of the simulation core of `mylab9.c` (geometry, `init`,
`traffic`, `physics`) together with the properties stated about it.

Modelling conventions.
* `double` values are exact rationals (`ℚ`); the constant `0.0002` is `1/5000`.
* `int` values are mathematical integers (`Int`); the window size, the extents and
  the counters stay far below the range of a C `int`, so no wrap-around is applied.
* `c->w >> 1` is the arithmetic right shift of `Int`, `e >>> 1`.
* every call of `rand()` is an input of the operation that makes the call.
* the eight workers are interleaved one statement at a time; the mutex `waiter` is
  free or held by one worker, and `pthread_mutex_lock` waits while it is held.
* the calls of `fib` only pass time; they return for every argument that `traffic()`
  gives them.
-/

namespace CarCrash

/-- The number of cars, `#define NCARS 8`. -/
abbrev NCARS : Nat := 8

/-- The record `struct Box`: `pos[0]`, `pos[1]`, `vel[0]`, `vel[1]`, `w`, `h`. -/
structure Box where
  pos0 : ℚ
  pos1 : ℚ
  vel0 : ℚ
  vel1 : ℚ
  w : Int
  h : Int
deriving DecidableEq

/-- The expression `e >> 1` on an `int`. -/
def shr1 (e : Int) : Int := e >>> (1 : Nat)

/-- The function `overlap(c, i)`: the four rejections in source order, then `1`. -/
def overlap (c i : Box) : Int :=
  if c.pos0 + (shr1 c.w : ℚ) < i.pos0 - (shr1 i.w : ℚ) then 0
  else if c.pos0 - (shr1 c.w : ℚ) > i.pos0 + (shr1 i.w : ℚ) then 0
  else if c.pos1 + (shr1 c.h : ℚ) < i.pos1 - (shr1 i.h : ℚ) then 0
  else if c.pos1 - (shr1 c.h : ℚ) > i.pos1 + (shr1 i.h : ℚ) then 0
  else 1

/-- The fields of `struct Global` that the simulation core reads or writes. -/
structure Global where
  xres : Int
  yres : Int
  collision_flag : Int
  collision : Fin NCARS → Int
  crash0 : Int
  crash1 : Int
  show_collisions : Int
  ncollisions : Int
  slow_mode : Int
  intersection : Fin NCARS → Int

/-- The global variables `g`, `intersection` and `cars[NCARS]`. -/
structure State where
  g : Global
  intersection : Box
  cars : Fin NCARS → Box

/-- The zero-initialised record `struct Box`. -/
def Box.zero : Box := { pos0 := 0, pos1 := 0, vel0 := 0, vel1 := 0, w := 0, h := 0 }

/-- The globals as `main` hands them to `init()`: zero-initialised static storage in
which `init_xwindows(w, h)` has stored `g.xres = w` and `g.yres = h`. -/
def start (w h : Int) : State :=
  { g := { xres := w, yres := h, collision_flag := 0, collision := fun _ => 0,
           crash0 := 0, crash1 := 0, show_collisions := 0, ncollisions := 0,
           slow_mode := 0, intersection := fun _ => 0 },
    intersection := Box.zero,
    cars := fun _ => Box.zero }

/-- The factor `0.0002` of the velocities. -/
def SCALE : ℚ := 2 / 10000

/-- The value `rand() % 4 + 14` added to the length of a car. -/
def jitter (r : Nat) : Int := ((r % 4 + 14 : Nat) : Int)

/-- The value `rand() % 3 + 1`, the unscaled speed of a car. -/
def speed (r : Nat) : Int := ((r % 3 + 1 : Nat) : Int)

/-- The box `intersection` as `init()` sets it; `g.xres / 2` is the division of
`int`, which truncates. -/
def initIntersection (g : Global) : Box :=
  { w := 112, h := 112,
    pos0 := ((Int.tdiv g.xres 2 : Int) : ℚ), pos1 := ((Int.tdiv g.yres 2 : Int) : ℚ),
    vel0 := 0, vel1 := 0 }

/-- The first loop of `init()`: every car is `18x18`, at the centre, at rest. -/
def initBase (i : Box) : Box :=
  { w := 18, h := 18, pos0 := i.pos0, pos1 := i.pos1, vel0 := 0, vel1 := 0 }

/-- The per-car assignments of `init()`, with `offset = 15`, before the velocities
are scaled; `r n` is the value of the `n`-th call of `rand()`. -/
def initCar (g : Global) (r : Nat → Nat) (b : Box) : Fin NCARS → Box
  | 0 => { b with w := b.w + jitter (r 0), pos0 := ((g.xres + 30 : Int) : ℚ),
                  pos1 := b.pos1 - 15, vel0 := ((-(speed (r 1)) : Int) : ℚ), vel1 := 0 }
  | 1 => { b with w := b.w + jitter (r 2), pos0 := -40,
                  pos1 := b.pos1 + 15, vel0 := ((speed (r 3) : Int) : ℚ), vel1 := 0 }
  | 2 => { b with h := b.h + jitter (r 4), pos0 := b.pos0 - 15,
                  pos1 := -30, vel0 := 0, vel1 := ((speed (r 5) : Int) : ℚ) }
  | 3 => { b with h := b.h + jitter (r 6), pos0 := b.pos0 + 15,
                  pos1 := ((g.yres + 30 : Int) : ℚ), vel0 := 0,
                  vel1 := ((-(speed (r 7)) : Int) : ℚ) }
  | 4 => { b with w := b.w + jitter (r 8), pos0 := ((g.xres + 30 : Int) : ℚ),
                  pos1 := b.pos1 - ((15 + 21 : Int) : ℚ),
                  vel0 := ((-(speed (r 9)) : Int) : ℚ), vel1 := 0 }
  | 5 => { b with w := b.w + jitter (r 10), pos0 := -40,
                  pos1 := b.pos1 + ((15 + 21 : Int) : ℚ),
                  vel0 := ((speed (r 11) : Int) : ℚ), vel1 := 0 }
  | 6 => { b with h := b.h + jitter (r 12), pos0 := b.pos0 - ((15 + 21 : Int) : ℚ),
                  pos1 := -30, vel0 := 0, vel1 := ((speed (r 13) : Int) : ℚ) }
  | 7 => { b with h := b.h + jitter (r 14), pos0 := b.pos0 + ((15 + 21 : Int) : ℚ),
                  pos1 := ((g.yres + 30 : Int) : ℚ), vel0 := 0,
                  vel1 := ((-(speed (r 15)) : Int) : ℚ) }

/-- The last loop of `init()`: `vel[0] *= 0.0002; vel[1] *= 0.0002`. -/
def scaleVel (c : Box) : Box :=
  { c with vel0 := c.vel0 * SCALE, vel1 := c.vel1 * SCALE }

/-- The function `init()`; `r n` is the value of its `n`-th call of `rand()`. -/
def init (r : Nat → Nat) (s : State) : State :=
  let g : Global := { s.g with collision_flag := 0, show_collisions := 0,
                               ncollisions := 0, slow_mode := 0 }
  let i := initIntersection g
  { g := g, intersection := i, cars := fun k => scaleVel (initCar g r (initBase i) k) }

/-- The conversion of a `double` to an `int`: truncation towards zero. -/
def truncInt (q : ℚ) : Int := Int.tdiv q.num (q.den : Int)

/-- The body of the inner loop of `physics()` for the pair `(i, j)`. -/
def physicsPair (cars : Fin NCARS → Box) (i j : Fin NCARS) (g : Global) : Global :=
  if i = j then g
  else if overlap (cars i) (cars j) ≠ 0 then
    { g with
      collision_flag := 1,
      collision := fun n =>
        if n = 0 then truncInt (cars i).pos0
        else if n = 1 then truncInt (cars i).pos1
        else if n = 2 then truncInt (cars j).pos0
        else if n = 3 then truncInt (cars j).pos1
        else g.collision n,
      crash0 := ((i : Nat) : Int),
      crash1 := ((j : Nat) : Int),
      ncollisions := g.ncollisions + 1 }
  else g

/-- One pass of the outer loop of `physics()`: `j` runs from `0` to `NCARS - 1`. -/
def physicsRow (cars : Fin NCARS → Box) (g : Global) (i : Fin NCARS) : Global :=
  (List.finRange NCARS).foldl (fun g j => physicsPair cars i j g) g

/-- The function `physics()`. -/
def physics (s : State) : State :=
  { s with g := (List.finRange NCARS).foldl (physicsRow s.cars)
                  { s.g with collision_flag := 0 } }

/-- The unordered pairs of different cars that overlap, each written `(i, j)` with
`i < j`. -/
def overlappingPairs (cars : Fin NCARS → Box) : Finset (Fin NCARS × Fin NCARS) :=
  Finset.univ.filter (fun p => p.1 < p.2 ∧ overlap (cars p.1) (cars p.2) = 1)

/-! ### The worker `traffic()` -/

/-- The statement `cars[carnum].pos[0] += cars[carnum].vel[0]`. -/
def moveX (c : Box) : Box := { c with pos0 := c.pos0 + c.vel0 }

/-- The statement `cars[carnum].pos[1] += cars[carnum].vel[1]`. -/
def moveY (c : Box) : Box := { c with pos1 := c.pos1 + c.vel1 }

/-- The advance of a car: both coordinates, in source order. -/
def advance (c : Box) : Box := moveY (moveX c)

/-- The four checks at the end of the loop of `traffic()`, in source order. -/
inductive Edge where
  | left
  | top
  | right
  | bottom
deriving DecidableEq

/-- The condition of the check of an edge; `g.xres + 20` is an `int`. -/
def edgeCond (g : Global) : Edge → Box → Bool
  | .left, c => decide (c.pos0 < -20) && decide (c.vel0 < 0)
  | .top, c => decide (c.pos1 < -20) && decide (c.vel1 < 0)
  | .right, c => decide (c.pos0 > ((g.xres + 20 : Int) : ℚ)) && decide (c.vel0 > 0)
  | .bottom, c => decide (c.pos1 > ((g.yres + 20 : Int) : ℚ)) && decide (c.vel1 > 0)

/-- The first statement under the check of an edge: the car is moved by
`g.xres + 40.0` or `g.yres + 40.0`, a `double`. -/
def edgePos (g : Global) : Edge → Box → Box
  | .left, c => { c with pos0 := c.pos0 + ((g.xres : ℚ) + 40) }
  | .top, c => { c with pos1 := c.pos1 + ((g.yres : ℚ) + 40) }
  | .right, c => { c with pos0 := c.pos0 - ((g.xres : ℚ) + 40) }
  | .bottom, c => { c with pos1 := c.pos1 - ((g.yres : ℚ) + 40) }

/-- The second statement under the check of an edge: the velocity becomes
`-(rand() % 3 + 1)` or `rand() % 3 + 1`; `r` is the value of `rand()`. -/
def edgeVel (r : Nat) : Edge → Box → Box
  | .left, c => { c with vel0 := ((-(speed r) : Int) : ℚ) }
  | .top, c => { c with vel1 := ((-(speed r) : Int) : ℚ) }
  | .right, c => { c with vel0 := ((speed r : Int) : ℚ) }
  | .bottom, c => { c with vel1 := ((speed r : Int) : ℚ) }

/-- The third statement under the check of an edge: the velocity is scaled by
`0.0002`. -/
def edgeScale : Edge → Box → Box
  | .left, c => { c with vel0 := c.vel0 * SCALE }
  | .top, c => { c with vel1 := c.vel1 * SCALE }
  | .right, c => { c with vel0 := c.vel0 * SCALE }
  | .bottom, c => { c with vel1 := c.vel1 * SCALE }

/-- The check of one edge: `if (cond) { pos; vel = rand; vel *= 0.0002; }`. -/
def edgeCheck (g : Global) (r : Nat) (e : Edge) (c : Box) : Box :=
  if edgeCond g e c then edgeScale e (edgeVel r e (edgePos g e c)) else c

/-- The four checks left, top, right, bottom, in this order; `r e` is the value that
`rand()` returns under the check of edge `e`. -/
def wraparound (g : Global) (r : Edge → Nat) (c : Box) : Box :=
  edgeCheck g (r .bottom) .bottom
    (edgeCheck g (r .right) .right
      (edgeCheck g (r .top) .top
        (edgeCheck g (r .left) .left c)))

/-- One iteration of the loop of `traffic()` in which the car does not overlap the
intersection after its advance: the advance, then the four checks. -/
def tick (g : Global) (r : Edge → Nat) (c : Box) : Box :=
  wraparound g r (advance c)

/-- The state in which car `k` is `c`. -/
def setCar (k : Fin NCARS) (c : Box) (s : State) : State :=
  { s with cars := Function.update s.cars k c }

/-- The statement `g.intersection[carnum]++`. -/
def countPass (k : Fin NCARS) (s : State) : State :=
  { s with g := { s.g with
      intersection := Function.update s.g.intersection k (s.g.intersection k + 1) } }

/-! ### The eight workers, interleaved -/

/-- The statements of `traffic()`, one program counter for each. -/
inductive Pc where
  /-- The call `fib(rand() % 5 + 2)` at the head of the loop. -/
  | delay
  /-- The statement `pos[0] += vel[0]`. -/
  | moveX
  /-- The statement `pos[1] += vel[1]`. -/
  | moveY
  /-- The test `if (overlap(&cars[carnum], &intersection))`. -/
  | enter
  /-- The call `pthread_mutex_lock(&waiter)`. -/
  | lock
  /-- The test `while (overlap(&cars[carnum], &intersection))`. -/
  | inside
  /-- The call `fib(rand() % 5 + 2)` in the inner loop. -/
  | delayIn
  /-- The statement `if (g.slow_mode) fib(15)`. -/
  | slowIn
  /-- The statement `pos[0] += vel[0]` in the inner loop. -/
  | moveXIn
  /-- The statement `pos[1] += vel[1]` in the inner loop. -/
  | moveYIn
  /-- The statement `g.intersection[carnum]++`. -/
  | count
  /-- The call `pthread_mutex_unlock(&waiter)`. -/
  | unlock
  /-- The test of the check of an edge. -/
  | edgeTest (e : Edge)
  /-- The first statement under the check of an edge. -/
  | edgePos (e : Edge)
  /-- The second statement under the check of an edge. -/
  | edgeVel (e : Edge)
  /-- The third statement under the check of an edge. -/
  | edgeScale (e : Edge)
deriving DecidableEq

/-- The statement after the check of an edge. -/
def Edge.next : Edge → Pc
  | .left => .edgeTest .top
  | .top => .edgeTest .right
  | .right => .edgeTest .bottom
  | .bottom => .delay

/-- The globals, the program counter of each worker, and the worker that holds the
mutex `waiter`, if one does. -/
structure Sys where
  st : State
  pc : Fin NCARS → Pc
  waiter : Option (Fin NCARS)

/-- Worker `k` moves on to statement `p` in state `st`. -/
def Sys.goto (s : Sys) (k : Fin NCARS) (p : Pc) (st : State) : Sys :=
  { s with st := st, pc := Function.update s.pc k p }

/-- Worker `k` executes its next statement; `r` is the value of `rand()` if the
statement calls it. The result is `none` when the statement is
`pthread_mutex_lock(&waiter)` and a worker holds the mutex. -/
def step (k : Fin NCARS) (r : Nat) (s : Sys) : Option Sys :=
  let c := s.st.cars k
  match s.pc k with
  | .delay => some (s.goto k .moveX s.st)
  | .moveX => some (s.goto k .moveY (setCar k (moveX c) s.st))
  | .moveY => some (s.goto k .enter (setCar k (moveY c) s.st))
  | .enter =>
    if overlap c s.st.intersection ≠ 0 then some (s.goto k .lock s.st)
    else some (s.goto k (.edgeTest .left) s.st)
  | .lock =>
    match s.waiter with
    | none => some { s.goto k .inside s.st with waiter := some k }
    | some _ => none
  | .inside =>
    if overlap c s.st.intersection ≠ 0 then some (s.goto k .delayIn s.st)
    else some (s.goto k .count s.st)
  | .delayIn => some (s.goto k .slowIn s.st)
  | .slowIn => some (s.goto k .moveXIn s.st)
  | .moveXIn => some (s.goto k .moveYIn (setCar k (moveX c) s.st))
  | .moveYIn => some (s.goto k .inside (setCar k (moveY c) s.st))
  | .count => some (s.goto k .unlock (countPass k s.st))
  | .unlock => some { s.goto k (.edgeTest .left) s.st with waiter := none }
  | .edgeTest e =>
    if edgeCond s.st.g e c then some (s.goto k (.edgePos e) s.st)
    else some (s.goto k e.next s.st)
  | .edgePos e => some (s.goto k (.edgeVel e) (setCar k (edgePos s.st.g e c) s.st))
  | .edgeVel e => some (s.goto k (.edgeScale e) (setCar k (edgeVel r e c) s.st))
  | .edgeScale e => some (s.goto k e.next (setCar k (edgeScale e c) s.st))

/-- A schedule is run: each entry names the worker that executes its next statement
and the value of `rand()` for it. -/
def run : List (Fin NCARS × Nat) → Sys → Option Sys
  | [], s => some s
  | (k, r) :: rest, s =>
    match step k r s with
    | none => none
    | some s' => run rest s'

/-- The states that some interleaving of the workers reaches from `s0`. -/
def Reachable (s0 s : Sys) : Prop := ∃ sched, run sched s0 = some s

/-- The system when `main` has created the workers: `init_xwindows(w, h)` and
`init()` have run, every worker is at the head of its loop, the mutex is free. -/
def boot (w h : Int) (r : Nat → Nat) : Sys :=
  { st := init r (start w h), pc := fun _ => .delay, waiter := none }

/-- The statements between `pthread_mutex_lock` and `pthread_mutex_unlock`: the
worker has acquired the mutex and has not released it. -/
def Pc.guarded : Pc → Bool
  | .inside | .delayIn | .slowIn | .moveXIn | .moveYIn | .count | .unlock => true
  | _ => false

/-- Car `c` has the extents of car `c0`, and the coordinate along which `c0` does not
travel (its velocity there is zero) is the one of `c0`; the coordinate along the axis
of travel of `c0` is arbitrary. -/
def KeepsLane (c0 c : Box) : Prop :=
  c.w = c0.w ∧ c.h = c0.h ∧ (c0.vel0 = 0 → c.pos0 = c0.pos0) ∧
    (c0.vel1 = 0 → c.pos1 = c0.pos1)

/-- A car that travels along the first axis on the lane at offset `off` from the
centre line `cy`: it is `18` high and between `32` and `35` long. -/
def OnRow (cy off : ℚ) (c : Box) : Prop :=
  shr1 c.h = 9 ∧ 16 ≤ shr1 c.w ∧ shr1 c.w ≤ 17 ∧ c.pos1 = cy + off

/-- A car that travels along the second axis on the lane at offset `off` from the
centre line `cx`: it is `18` wide and between `32` and `35` long. -/
def OnColumn (cx off : ℚ) (c : Box) : Prop :=
  shr1 c.w = 9 ∧ 16 ≤ shr1 c.h ∧ shr1 c.h ≤ 17 ∧ c.pos0 = cx + off

/-- The cars that `init()` sends along the first axis: `0`, `1`, `4` and `5`. -/
def horizontal (k : Fin NCARS) : Bool := k = 0 ∨ k = 1 ∨ k = 4 ∨ k = 5

/-- The offset of the lane of car `k` from the centre of the intersection, as
`init()` sets it. -/
def laneOffset : Fin NCARS → ℚ
  | 0 => -15
  | 1 => 15
  | 2 => -15
  | 3 => 15
  | 4 => -36
  | 5 => 36
  | 6 => -36
  | 7 => 36

/-- The ordered pair `p` of cars passes both tests of the inner loop of `physics()`:
the cars are different and `overlap` is not `0`. -/
def collides (cars : Fin NCARS → Box) (p : Fin NCARS × Fin NCARS) : Bool :=
  decide (p.1 ≠ p.2) && decide (overlap (cars p.1) (cars p.2) ≠ 0)

/-- The ordered pairs `(i, j)` in the order in which `physics()` visits them. -/
def scanOrder : List (Fin NCARS × Fin NCARS) :=
  List.product (List.finRange NCARS) (List.finRange NCARS)

/-- The sign of the velocity that `init()` gives car `k` along its axis of travel:
cars `0` and `4` head west and cars `3` and `7` head north (`-1`), cars `1` and `5`
head east and cars `2` and `6` head south (`+1`). -/
def heading : Fin NCARS → Int
  | 0 => -1
  | 1 => 1
  | 2 => 1
  | 3 => -1
  | 4 => -1
  | 5 => 1
  | 6 => 1
  | 7 => -1

/-- The first coordinate of the car lies in `[-40, W + 40]` and its velocity along
the first axis is `sgn * k * 0.0002` for some `k` in `{1, 2, 3}`. -/
def Bounded (W : Int) (sgn : Int) (c : Box) : Prop :=
  -40 ≤ c.pos0 ∧ c.pos0 ≤ (W : ℚ) + 40 ∧
    (c.vel0 = (sgn : ℚ) * 1 * (2 / 10000) ∨ c.vel0 = (sgn : ℚ) * 2 * (2 / 10000) ∨
      c.vel0 = (sgn : ℚ) * 3 * (2 / 10000))

/-- A car heading west at `x = -20` with velocity `-0.0002`: its next advance takes
it below `-20`. -/
def edgeCar : Box :=
  { pos0 := -20, pos1 := 215, vel0 := -(2 / 10000), vel1 := 0, w := 32, h := 18 }

/-- The mutex agrees with the program counters: worker `k` is between its
`pthread_mutex_lock` and its `pthread_mutex_unlock` exactly when it holds `waiter`. -/
def LockInv (s : Sys) : Prop :=
  ∀ k : Fin NCARS, (s.pc k).guarded = true ↔ s.waiter = some k

/-- The system `s` in which worker `k` is at statement `p` and its car is `c`. -/
def place (s : Sys) (k : Fin NCARS) (p : Pc) (c : Box) : Sys :=
  s.goto k p (setCar k c s.st)

/-- The car is clear of the box `i` and none of the four edge checks fires on it. -/
def Clear (g : Global) (i c : Box) : Prop :=
  overlap c i = 0 ∧ ∀ e : Edge, edgeCond g e c = false

/-- The start of `main` in which every call of `rand()` in `init()` returns `2`: each
car is `34` long and moves by `0.0006` per advance. -/
def boot2 : Sys := boot 460 460 (fun _ => 2)

/-- A state of the `460x460` run in which two cars overlap the intersection: car `0`
(heading west, at `x = 302.9998`) has entered, holds the mutex and is about to test
the condition of its crossing loop; car `1` (heading east, at `x = 157.0004`) has
advanced into the box and is at `pthread_mutex_lock`. -/
def jamState : Sys :=
  { st := setCar 1 { boot2.st.cars 1 with pos0 := 1570004 / 10000 }
            (setCar 0 { boot2.st.cars 0 with pos0 := 3029998 / 10000 } boot2.st),
    pc := fun k => if k = 0 then .inside else if k = 1 then .lock else .delay,
    waiter := some 0 }

/-! ### The position of a car along its lane, statement by statement -/

/-- The coordinate of the car along its axis of travel; `hz` says that the car
travels along the first axis. -/
def alongPos (hz : Bool) (c : Box) : ℚ := if hz then c.pos0 else c.pos1

/-- The velocity of the car along its axis of travel. -/
def alongVel (hz : Bool) (c : Box) : ℚ := if hz then c.vel0 else c.vel1

/-- The half-length `w >> 1` or `h >> 1` of the car along its axis of travel. -/
def alongHalf (hz : Bool) (c : Box) : ℚ := if hz then (shr1 c.w : ℚ) else (shr1 c.h : ℚ)

/-- The coordinate of the centre of the intersection along the axis of travel. -/
def centre (hz : Bool) (i : Box) : ℚ := if hz then i.pos0 else i.pos1

/-- The extent `g.xres` or `g.yres` of the field along the axis of travel. -/
def field (hz : Bool) (g : Global) : ℚ := if hz then (g.xres : ℚ) else (g.yres : ℚ)

/-- The sign of the heading; `neg` says that the car heads west or north. -/
def sgn (neg : Bool) : ℚ := if neg then -1 else 1

/-- The lane of a car: it is `18` wide and between `32` and `35` long, its lateral
coordinate is at most `36` from the centre line and its lateral velocity is `0`. -/
def Static (hz : Bool) (i c : Box) : Prop :=
  if hz then
    shr1 c.h = 9 ∧ (16 : ℚ) ≤ (shr1 c.w : ℚ) ∧ (shr1 c.w : ℚ) ≤ 17 ∧
      -36 ≤ c.pos1 - i.pos1 ∧ c.pos1 - i.pos1 ≤ 36 ∧ c.vel1 = 0
  else
    shr1 c.w = 9 ∧ (16 : ℚ) ≤ (shr1 c.h : ℚ) ∧ (shr1 c.h : ℚ) ≤ 17 ∧
      -36 ≤ c.pos0 - i.pos0 ∧ c.pos0 - i.pos0 ≤ 36 ∧ c.vel0 = 0

/-- The car is within reach of the intersection along its axis of travel. -/
def In (hz : Bool) (i c : Box) : Prop :=
  centre hz i - 56 - alongHalf hz c ≤ alongPos hz c ∧
    alongPos hz c ≤ centre hz i + 56 + alongHalf hz c

/-- The car is at least `1` within reach of the intersection along its axis of
travel. -/
def Deep (hz : Bool) (i c : Box) : Prop :=
  centre hz i - 55 - alongHalf hz c ≤ alongPos hz c ∧
    alongPos hz c ≤ centre hz i + 55 + alongHalf hz c

/-- The lateral coordinate of the car, measured from the centre of the
intersection. -/
def lateral (hz : Bool) (i c : Box) : ℚ :=
  if hz then c.pos1 - i.pos1 else c.pos0 - i.pos0

/-- The scaled velocity: on the heading, at most `0.0006` per advance. -/
def Vel (hz neg : Bool) (c : Box) : Prop :=
  0 < sgn neg * alongVel hz c ∧ sgn neg * alongVel hz c ≤ 6 / 10000

/-- The velocity between `vel = rand() % 3 + 1` and `vel *= 0.0002`. -/
def VelRaw (hz neg : Bool) (c : Box) : Prop :=
  1 ≤ sgn neg * alongVel hz c ∧ sgn neg * alongVel hz c ≤ 3

/-- The car has not passed the edge that it heads for. -/
def Tight (hz neg : Bool) (g : Global) (c : Box) : Prop :=
  if neg then -20 ≤ alongPos hz c else alongPos hz c ≤ field hz g + 20

/-- The car has passed the edge that it heads for by at most `1`. -/
def Near (hz neg : Bool) (g : Global) (c : Box) : Prop :=
  if neg then -21 ≤ alongPos hz c else alongPos hz c ≤ field hz g + 21

/-- The car has passed the edge that it heads for. -/
def Beyond (hz neg : Bool) (g : Global) (c : Box) : Prop :=
  if neg then alongPos hz c < -20 else field hz g + 20 < alongPos hz c

/-- The edge that the car heads for. -/
def ownEdge : Bool → Bool → Edge
  | true, true => .left
  | true, false => .right
  | false, true => .top
  | false, false => .bottom

/-- The place of an edge in the order of the checks. -/
def Edge.idx : Edge → Nat
  | .left => 0
  | .top => 1
  | .right => 2
  | .bottom => 3

/-- The intersection box has half-extent `56` and lies at least `55` inside the
field on every side. -/
def Roomy (g : Global) (i : Box) : Prop :=
  shr1 i.w = 56 ∧ shr1 i.h = 56 ∧
    55 ≤ i.pos0 ∧ i.pos0 + 55 ≤ (g.xres : ℚ) ∧ 55 ≤ i.pos1 ∧ i.pos1 + 55 ≤ (g.yres : ℚ)

/-- What is known of the car of a worker when the worker is at statement `p`. -/
def carInv (hz neg : Bool) (g : Global) (i : Box) : Pc → Box → Prop
  | .delay, c => Static hz i c ∧ Vel hz neg c ∧ Tight hz neg g c ∧ ¬ In hz i c
  | .moveX, c => Static hz i c ∧ Vel hz neg c ∧ Tight hz neg g c ∧ ¬ In hz i c
  | .moveY, c => Static hz i c ∧ Vel hz neg c ∧
      (if hz then Near hz neg g c ∧ ¬ Deep hz i c else Tight hz neg g c ∧ ¬ In hz i c)
  | .enter, c => Static hz i c ∧ Vel hz neg c ∧ Near hz neg g c ∧ ¬ Deep hz i c
  | .lock, c => Static hz i c ∧ Vel hz neg c ∧ In hz i c ∧ ¬ Deep hz i c
  | .inside, c => Static hz i c ∧ Vel hz neg c ∧ Near hz neg g c
  | .delayIn, c => Static hz i c ∧ Vel hz neg c ∧ In hz i c
  | .slowIn, c => Static hz i c ∧ Vel hz neg c ∧ In hz i c
  | .moveXIn, c => Static hz i c ∧ Vel hz neg c ∧ In hz i c
  | .moveYIn, c => Static hz i c ∧ Vel hz neg c ∧
      (if hz then Near hz neg g c else In hz i c)
  | .count, c => Static hz i c ∧ Vel hz neg c ∧ Near hz neg g c ∧ ¬ In hz i c
  | .unlock, c => Static hz i c ∧ Vel hz neg c ∧ Near hz neg g c ∧ ¬ In hz i c
  | .edgeTest e, c => Static hz i c ∧ Vel hz neg c ∧ ¬ In hz i c ∧
      (if e.idx ≤ (ownEdge hz neg).idx then Near hz neg g c else Tight hz neg g c)
  | .edgePos e, c => e = ownEdge hz neg ∧ Static hz i c ∧ Vel hz neg c ∧
      Near hz neg g c ∧ Beyond hz neg g c ∧ ¬ In hz i c
  | .edgeVel e, c => e = ownEdge hz neg ∧ Static hz i c ∧ Vel hz neg c ∧
      Tight hz neg g c ∧ ¬ In hz i c
  | .edgeScale e, c => e = ownEdge hz neg ∧ Static hz i c ∧ VelRaw hz neg c ∧
      Tight hz neg g c ∧ ¬ In hz i c

/-- The statement at `p` of a worker whose car is `c`: the next statement and the
car afterwards. The mutex and the counter are left to `step`. -/
def effect (g : Global) (i : Box) (r : Nat) : Pc → Box → Pc × Box
  | .delay, c => (.moveX, c)
  | .moveX, c => (.moveY, moveX c)
  | .moveY, c => (.enter, moveY c)
  | .enter, c => if overlap c i ≠ 0 then (.lock, c) else (.edgeTest .left, c)
  | .lock, c => (.inside, c)
  | .inside, c => if overlap c i ≠ 0 then (.delayIn, c) else (.count, c)
  | .delayIn, c => (.slowIn, c)
  | .slowIn, c => (.moveXIn, c)
  | .moveXIn, c => (.moveYIn, moveX c)
  | .moveYIn, c => (.inside, moveY c)
  | .count, c => (.unlock, c)
  | .unlock, c => (.edgeTest .left, c)
  | .edgeTest e, c => if edgeCond g e c then (.edgePos e, c) else (e.next, c)
  | .edgePos e, c => (.edgeVel e, edgePos g e c)
  | .edgeVel e, c => (.edgeScale e, edgeVel r e c)
  | .edgeScale e, c => (e.next, edgeScale e c)

/-- Car `k` heads west or north: `init()` gives it a negative velocity. -/
def negative (k : Fin NCARS) : Bool := decide (heading k = -1)

/-- The statements between the advance that may take the car into the intersection
and the acquisition of the mutex: the second advance statement, the test
`if (overlap(...))` and `pthread_mutex_lock`. -/
def Pc.entering : Pc → Bool
  | .moveY | .enter | .lock => true
  | _ => false

/-- The mutex agrees with the program counters, the intersection lies well inside
the field, and each car is where the statement of its worker allows. -/
def LaneInv (s : Sys) : Prop :=
  LockInv s ∧ Roomy s.st.g s.st.intersection ∧
    ∀ k : Fin NCARS,
      carInv (horizontal k) (negative k) s.st.g s.st.intersection (s.pc k) (s.st.cars k)

/-- The cars of the `460x460` run after `init()` (every `rand()` being `2`), except
that car `0` has come to `x = 215` on its lane and car `2` to `y = 215` on its lane:
the two cars overlap in the middle of the intersection. -/
def crashCars : Fin NCARS → Box := fun k =>
  if k = 0 then { boot2.st.cars 0 with pos0 := 215 }
  else if k = 2 then { boot2.st.cars 2 with pos1 := 215 }
  else boot2.st.cars k

/-- The state of the `460x460` run in which the cars are `crashCars`. -/
def crashState : State := { boot2.st with cars := crashCars }

/-- The boxes of `crashCars`, written out. -/
def crashTable : Fin NCARS → Box
  | 0 => { pos0 := 215, pos1 := 215, vel0 := -(6 / 10000), vel1 := 0, w := 34, h := 18 }
  | 1 => { pos0 := -40, pos1 := 245, vel0 := 6 / 10000, vel1 := 0, w := 34, h := 18 }
  | 2 => { pos0 := 215, pos1 := 215, vel0 := 0, vel1 := 6 / 10000, w := 18, h := 34 }
  | 3 => { pos0 := 245, pos1 := 490, vel0 := 0, vel1 := -(6 / 10000), w := 18, h := 34 }
  | 4 => { pos0 := 490, pos1 := 194, vel0 := -(6 / 10000), vel1 := 0, w := 34, h := 18 }
  | 5 => { pos0 := -40, pos1 := 266, vel0 := 6 / 10000, vel1 := 0, w := 34, h := 18 }
  | 6 => { pos0 := 194, pos1 := -30, vel0 := 0, vel1 := 6 / 10000, w := 18, h := 34 }
  | 7 => { pos0 := 266, pos1 := 490, vel0 := 0, vel1 := -(6 / 10000), w := 18, h := 34 }

/-- Each car is at the lateral offset of its lane from the centre of the
intersection. -/
def LatInv (s : Sys) : Prop :=
  ∀ k : Fin NCARS, lateral (horizontal k) s.st.intersection (s.st.cars k) = laneOffset k

/-- The system `s` in which worker `k` is at statement `p`, its car is `c`, its pass
counter `g.intersection[k]` is `n`, and the mutex is in state `w`; the other workers,
cars and counters are those of `s`. -/
def frame (s : Sys) (k : Fin NCARS) (p : Pc) (c : Box) (n : Int)
    (w : Option (Fin NCARS)) : Sys :=
  { st := { g := { s.st.g with intersection := Function.update s.st.g.intersection k n },
            intersection := s.st.intersection,
            cars := Function.update s.st.cars k c },
    pc := Function.update s.pc k p,
    waiter := w }

/-- The box with centre `(10,10)` and size `4x4`. -/
def boxT1 : Box := { pos0 := 10, pos1 := 10, vel0 := 0, vel1 := 0, w := 4, h := 4 }

/-- The box with centre `(14,10)` and size `4x4`; its left edge is the right edge
of `boxT1`. -/
def boxT2 : Box := { pos0 := 14, pos1 := 10, vel0 := 0, vel1 := 0, w := 4, h := 4 }

/-- The box with centre `(10,10)` and size `10x10`. -/
def boxI1 : Box := { pos0 := 10, pos1 := 10, vel0 := 0, vel1 := 0, w := 10, h := 10 }

/-- The box with centre `(12,10)` and size `10x10`. -/
def boxI2 : Box := { pos0 := 12, pos1 := 10, vel0 := 0, vel1 := 0, w := 10, h := 10 }

/-! ## Geometry -/

theorem shr1_eq_div (e : Int) : shr1 e = e / 2 := by
  unfold shr1
  rw [Int.shiftRight_eq_div_pow]
  norm_num

/-- The four rejections of `overlap`, as a proposition. -/
theorem overlap_eq_one_iff (c i : Box) :
    overlap c i = 1 ↔
      ¬ (c.pos0 + (shr1 c.w : ℚ) < i.pos0 - (shr1 i.w : ℚ)) ∧
      ¬ (c.pos0 - (shr1 c.w : ℚ) > i.pos0 + (shr1 i.w : ℚ)) ∧
      ¬ (c.pos1 + (shr1 c.h : ℚ) < i.pos1 - (shr1 i.h : ℚ)) ∧
      ¬ (c.pos1 - (shr1 c.h : ℚ) > i.pos1 + (shr1 i.h : ℚ)) := by
  unfold overlap
  split_ifs <;> simp_all

theorem overlap_eq_zero_or_one (c i : Box) : overlap c i = 0 ∨ overlap c i = 1 := by
  unfold overlap
  split_ifs <;> simp

theorem overlap_ne_one_iff (c i : Box) : overlap c i ≠ 1 ↔ overlap c i = 0 := by
  rcases overlap_eq_zero_or_one c i with h | h <;> simp [h]

/-- The four rejections of `overlap` read the same with the boxes exchanged. -/
theorem overlap_comm (A B : Box) : overlap A B = overlap B A := by
  have key : ∀ X Y : Box, overlap X Y = 1 → overlap Y X = 1 := by
    intro X Y h
    rw [overlap_eq_one_iff] at h ⊢
    obtain ⟨a, b, c, d⟩ := h
    exact ⟨fun hh => b hh, fun hh => a hh, fun hh => d hh, fun hh => c hh⟩
  rcases overlap_eq_zero_or_one A B with h | h
  · rcases overlap_eq_zero_or_one B A with h' | h'
    · rw [h, h']
    · have := key B A h'
      omega
  · rw [h, key A B h]

/-- C3. Overlap symmetry: `overlap(A, B) == overlap(B, A)` for all boxes `A` and `B`,
whatever their positions and integer extents. -/
theorem overlap_symm (A B : Box) : overlap A B = overlap B A := by
  rcases overlap_eq_zero_or_one A B with h | h
  · rcases overlap_eq_zero_or_one B A with h' | h'
    · rw [h, h']
    · exfalso
      have h1 := (overlap_eq_one_iff B A).1 h'
      have h2 : overlap A B = 1 := by
        rw [overlap_eq_one_iff]
        obtain ⟨a, b, c, d⟩ := h1
        refine ⟨?_, ?_, ?_, ?_⟩ <;> intro hh <;> first
          | exact a hh | exact b hh | exact c hh | exact d hh
      omega
  · have h1 := (overlap_eq_one_iff A B).1 h
    have h2 : overlap B A = 1 := by
      rw [overlap_eq_one_iff]
      obtain ⟨a, b, c, d⟩ := h1
      refine ⟨?_, ?_, ?_, ?_⟩ <;> intro hh <;> first
        | exact a hh | exact b hh | exact c hh | exact d hh
    rw [h, h2]

theorem shr1_four : shr1 4 = 2 := by rw [shr1_eq_div]; norm_num

theorem shr1_ten : shr1 10 = 5 := by rw [shr1_eq_div]; norm_num

theorem shr1_nonneg {e : Int} (h : 0 ≤ e) : 0 ≤ shr1 e := by
  rw [shr1_eq_div]; omega

/-- The rectangle test of `overlap` with absolute values. -/
theorem overlap_eq_one_iff_abs (A B : Box) :
    overlap A B = 1 ↔
      |A.pos0 - B.pos0| ≤ (shr1 A.w : ℚ) + (shr1 B.w : ℚ) ∧
      |A.pos1 - B.pos1| ≤ (shr1 A.h : ℚ) + (shr1 B.h : ℚ) := by
  rw [overlap_eq_one_iff, abs_le, abs_le]
  constructor
  · rintro ⟨a, b, c, d⟩
    simp only [not_lt, gt_iff_lt] at a b c d
    refine ⟨⟨by linarith, by linarith⟩, ⟨by linarith, by linarith⟩⟩
  · rintro ⟨⟨a, b⟩, ⟨c, d⟩⟩
    simp only [not_lt, gt_iff_lt]
    refine ⟨by linarith, by linarith, by linarith, by linarith⟩

/-- C4, as stated, fails: the boxes with centres `(10,10)` and `(14,10)` and size
`4x4` touch (the right edge of the first is the left edge of the second, both are
`12`), and `overlap` returns `1` on them, in either order. -/
theorem overlap_touching_example :
    boxT1.pos0 + (shr1 boxT1.w : ℚ) = boxT2.pos0 - (shr1 boxT2.w : ℚ) ∧
      boxT1.pos0 + (shr1 boxT1.w : ℚ) = 12 ∧
      overlap boxT1 boxT2 = 1 ∧ overlap boxT2 boxT1 = 1 := by
  refine ⟨?_, ?_, ?_, ?_⟩
  · simp only [boxT1, boxT2, shr1_four]; norm_num
  · simp only [boxT1, shr1_four]; norm_num
  · rw [overlap_eq_one_iff_abs]; simp only [boxT1, boxT2, shr1_four]; norm_num [abs_le]
  · rw [overlap_eq_one_iff_abs]; simp only [boxT1, boxT2, shr1_four]; norm_num [abs_le]

/-- C4, amended. For boxes with positive extents whose edges exactly touch on one
axis, `overlap` is decided by the other axis alone: when the right edge of `A` is the
left edge of `B`, `overlap(A, B)` is `1` exactly when the boxes are not separated
vertically, and `0` otherwise; when the bottom edge of `A` is the top edge of `B`,
it is `1` exactly when they are not separated horizontally, and `0` otherwise. -/
theorem overlap_touching (A B : Box) (hAw : 0 < A.w) (hAh : 0 < A.h)
    (hBw : 0 < B.w) (hBh : 0 < B.h) :
    (A.pos0 + (shr1 A.w : ℚ) = B.pos0 - (shr1 B.w : ℚ) →
      (overlap A B = 1 ↔ |A.pos1 - B.pos1| ≤ (shr1 A.h : ℚ) + (shr1 B.h : ℚ)) ∧
      (overlap A B = 0 ↔ ¬ |A.pos1 - B.pos1| ≤ (shr1 A.h : ℚ) + (shr1 B.h : ℚ))) ∧
    (A.pos1 + (shr1 A.h : ℚ) = B.pos1 - (shr1 B.h : ℚ) →
      (overlap A B = 1 ↔ |A.pos0 - B.pos0| ≤ (shr1 A.w : ℚ) + (shr1 B.w : ℚ)) ∧
      (overlap A B = 0 ↔ ¬ |A.pos0 - B.pos0| ≤ (shr1 A.w : ℚ) + (shr1 B.w : ℚ))) := by
  have h1 : (0 : ℚ) ≤ (shr1 A.w : ℚ) := by exact_mod_cast shr1_nonneg hAw.le
  have h2 : (0 : ℚ) ≤ (shr1 A.h : ℚ) := by exact_mod_cast shr1_nonneg hAh.le
  have h3 : (0 : ℚ) ≤ (shr1 B.w : ℚ) := by exact_mod_cast shr1_nonneg hBw.le
  have h4 : (0 : ℚ) ≤ (shr1 B.h : ℚ) := by exact_mod_cast shr1_nonneg hBh.le
  constructor
  · intro ht
    have hx : |A.pos0 - B.pos0| ≤ (shr1 A.w : ℚ) + (shr1 B.w : ℚ) := by
      rw [abs_le]; constructor <;> linarith
    have key : overlap A B = 1 ↔
        |A.pos1 - B.pos1| ≤ (shr1 A.h : ℚ) + (shr1 B.h : ℚ) := by
      rw [overlap_eq_one_iff_abs]
      exact ⟨fun h => h.2, fun h => ⟨hx, h⟩⟩
    exact ⟨key, by rw [← overlap_ne_one_iff, ne_eq, key]⟩
  · intro ht
    have hy : |A.pos1 - B.pos1| ≤ (shr1 A.h : ℚ) + (shr1 B.h : ℚ) := by
      rw [abs_le]; constructor <;> linarith
    have key : overlap A B = 1 ↔
        |A.pos0 - B.pos0| ≤ (shr1 A.w : ℚ) + (shr1 B.w : ℚ) := by
      rw [overlap_eq_one_iff_abs]
      exact ⟨fun h => h.1, fun h => ⟨h, hy⟩⟩
    exact ⟨key, by rw [← overlap_ne_one_iff, ne_eq, key]⟩

/-- The amended C4 at the boxes `(10,10)` and `(14,10)` of size `4x4`: they touch
and are level, so `overlap` returns `1`. -/
theorem overlap_touching_witness :
    (0 : Int) < boxT1.w ∧ boxT1.pos0 + (shr1 boxT1.w : ℚ) = boxT2.pos0 - (shr1 boxT2.w : ℚ) ∧
      (overlap boxT1 boxT2 = 1 ↔
        |boxT1.pos1 - boxT2.pos1| ≤ (shr1 boxT1.h : ℚ) + (shr1 boxT2.h : ℚ)) :=
  have ht : boxT1.pos0 + (shr1 boxT1.w : ℚ) = boxT2.pos0 - (shr1 boxT2.w : ℚ) := by
    simp only [boxT1, boxT2, shr1_four]; norm_num
  ⟨by decide, ht,
    ((overlap_touching boxT1 boxT2 (by decide) (by decide) (by decide) (by decide)).1 ht).1⟩

/-- C5. `overlap(A, B)` is the rectangle test with floored half-extents: for all
boxes (of positive extents or not) it returns `1` exactly when
`|A.x - B.x| <= floor(A.w/2) + floor(B.w/2)` and
`|A.y - B.y| <= floor(A.h/2) + floor(B.h/2)`, which is the same as none of the four
rejections `a.right < b.left`, `a.left > b.right`, `a.bottom < b.top`,
`a.top > b.bottom` holding, and it returns `0` otherwise; on the boxes with centres
`(10,10)` and `(12,10)` and size `10x10` it returns `1`. -/
theorem overlap_reference :
    (∀ A B : Box,
      (overlap A B = 1 ↔
        |A.pos0 - B.pos0| ≤ ((⌊(A.w : ℚ) / 2⌋ : Int) : ℚ) + ((⌊(B.w : ℚ) / 2⌋ : Int) : ℚ) ∧
        |A.pos1 - B.pos1| ≤ ((⌊(A.h : ℚ) / 2⌋ : Int) : ℚ) + ((⌊(B.h : ℚ) / 2⌋ : Int) : ℚ)) ∧
      (overlap A B = 1 ↔
        ¬ (A.pos0 + ((⌊(A.w : ℚ) / 2⌋ : Int) : ℚ) < B.pos0 - ((⌊(B.w : ℚ) / 2⌋ : Int) : ℚ)) ∧
        ¬ (A.pos0 - ((⌊(A.w : ℚ) / 2⌋ : Int) : ℚ) > B.pos0 + ((⌊(B.w : ℚ) / 2⌋ : Int) : ℚ)) ∧
        ¬ (A.pos1 + ((⌊(A.h : ℚ) / 2⌋ : Int) : ℚ) < B.pos1 - ((⌊(B.h : ℚ) / 2⌋ : Int) : ℚ)) ∧
        ¬ (A.pos1 - ((⌊(A.h : ℚ) / 2⌋ : Int) : ℚ) > B.pos1 + ((⌊(B.h : ℚ) / 2⌋ : Int) : ℚ))) ∧
      (overlap A B ≠ 1 → overlap A B = 0)) ∧
    overlap boxI1 boxI2 = 1 := by
  have hf : ∀ e : Int, (⌊(e : ℚ) / 2⌋ : Int) = shr1 e := by
    intro e
    rw [shr1_eq_div]
    exact_mod_cast Rat.floor_intCast_div_natCast e 2
  refine ⟨fun A B => ?_, ?_⟩
  · simp only [hf]
    exact ⟨overlap_eq_one_iff_abs A B, overlap_eq_one_iff A B, (overlap_ne_one_iff A B).1⟩
  · rw [overlap_eq_one_iff_abs]
    simp only [boxI1, boxI2, shr1_ten]
    norm_num [abs_le]

/-! ## Collisions and the intersection -/

theorem shr1_eighteen : shr1 18 = 9 := by rw [shr1_eq_div]; norm_num

theorem shr1_intersection : shr1 112 = 56 := by rw [shr1_eq_div]; norm_num

theorem jitter_bounds (r : Nat) : 14 ≤ jitter r ∧ jitter r ≤ 17 := by
  unfold jitter; omega

theorem speed_bounds (r : Nat) : 1 ≤ speed r ∧ speed r ≤ 3 := by
  unfold speed; omega

theorem shr1_length (r : Nat) : 16 ≤ shr1 (18 + jitter r) ∧ shr1 (18 + jitter r) ≤ 17 := by
  have := jitter_bounds r
  rw [shr1_eq_div]; omega

/-- Two cars on different lanes of the same direction never overlap: the lanes are at
least `21` apart and the cars are `18` wide. -/
theorem row_row_disjoint {cy a b : ℚ} {c d : Box} (hc : OnRow cy a c) (hd : OnRow cy b d)
    (hab : 21 ≤ |a - b|) : overlap c d = 0 := by
  rw [← overlap_ne_one_iff, ne_eq, overlap_eq_one_iff_abs]
  obtain ⟨h1, -, -, h4⟩ := hc
  obtain ⟨k1, -, -, k4⟩ := hd
  rintro ⟨-, hy⟩
  rw [h1, k1, h4, k4] at hy
  have : cy + a - (cy + b) = a - b := by ring
  rw [this] at hy
  norm_num at hy
  linarith

theorem column_column_disjoint {cx a b : ℚ} {c d : Box} (hc : OnColumn cx a c)
    (hd : OnColumn cx b d) (hab : 21 ≤ |a - b|) : overlap c d = 0 := by
  rw [← overlap_ne_one_iff, ne_eq, overlap_eq_one_iff_abs]
  obtain ⟨h1, -, -, h4⟩ := hc
  obtain ⟨k1, -, -, k4⟩ := hd
  rintro ⟨hx, -⟩
  rw [h1, k1, h4, k4] at hx
  have : cx + a - (cx + b) = a - b := by ring
  rw [this] at hx
  norm_num at hx
  linarith

/-- A car on a row and a car on a column that overlap each other both overlap the
intersection box of half-extent `56`. -/
theorem row_column_inside {cx cy a b : ℚ} {c d i : Box} (hc : OnRow cy a c)
    (hd : OnColumn cx b d) (ha : |a| ≤ 36) (hb : |b| ≤ 36)
    (hi : i.pos0 = cx ∧ i.pos1 = cy ∧ shr1 i.w = 56 ∧ shr1 i.h = 56)
    (hov : overlap c d = 1) : overlap c i = 1 ∧ overlap d i = 1 := by
  obtain ⟨h1, h2, h3, h4⟩ := hc
  obtain ⟨k1, k2, k3, k4⟩ := hd
  obtain ⟨i1, i2, i3, i4⟩ := hi
  have h2q : (16 : ℚ) ≤ (shr1 c.w : ℚ) := by exact_mod_cast h2
  have h3q : (shr1 c.w : ℚ) ≤ 17 := by exact_mod_cast h3
  have k2q : (16 : ℚ) ≤ (shr1 d.h : ℚ) := by exact_mod_cast k2
  have k3q : (shr1 d.h : ℚ) ≤ 17 := by exact_mod_cast k3
  rw [overlap_eq_one_iff_abs] at hov ⊢
  rw [overlap_eq_one_iff_abs]
  rw [h1, k1, h4, k4] at hov
  rw [h1, k1, h4, k4, i1, i2, i3, i4]
  rw [abs_le] at ha hb
  obtain ⟨hx, hy⟩ := hov
  rw [abs_le] at hx hy
  push_cast at hx hy ⊢
  refine ⟨⟨?_, ?_⟩, ⟨?_, ?_⟩⟩ <;> rw [abs_le] <;> constructor <;> linarith

theorem init_intersection_box (w h : Int) (r : Nat → Nat) :
    (init r (start w h)).intersection.pos0 = ((Int.tdiv w 2 : Int) : ℚ) ∧
      (init r (start w h)).intersection.pos1 = ((Int.tdiv h 2 : Int) : ℚ) ∧
      shr1 (init r (start w h)).intersection.w = 56 ∧
      shr1 (init r (start w h)).intersection.h = 56 := by
  simp [init, start, initIntersection, shr1_intersection]

/-- The lane of each car after `init()`, for a car that kept it. -/
theorem init_lane (w h : Int) (r : Nat → Nat) (k : Fin NCARS) (c : Box)
    (hk : KeepsLane ((init r (start w h)).cars k) c) :
    (horizontal k = true → OnRow ((Int.tdiv h 2 : Int) : ℚ) (laneOffset k) c) ∧
      (horizontal k = false → OnColumn ((Int.tdiv w 2 : Int) : ℚ) (laneOffset k) c) := by
  obtain ⟨hw, hh, hx, hy⟩ := hk
  fin_cases k <;>
    simp [init, start, initIntersection, initBase, initCar, scaleVel] at hw hh hx hy <;>
    simp +decide [horizontal, laneOffset, OnRow, OnColumn, hw, hh, hx, hy, shr1_eighteen,
      shr1_length] <;>
    ring

theorem laneOffset_abs (k : Fin NCARS) : |laneOffset k| ≤ 36 := by
  fin_cases k <;> simp [laneOffset, abs_le] <;> norm_num

theorem laneOffset_gap (i j : Fin NCARS) (hij : i ≠ j) (hh : horizontal i = horizontal j) :
    21 ≤ |laneOffset i - laneOffset j| := by
  fin_cases i <;> fin_cases j <;> simp +decide [horizontal] at hij hh <;>
    simp [laneOffset, le_abs] <;> norm_num

theorem init_heading (w h : Int) (r : Nat → Nat) (k : Fin NCARS) :
    (horizontal k = true →
      ((init r (start w h)).cars k).vel0 ≠ 0 ∧ ((init r (start w h)).cars k).vel1 = 0) ∧
    (horizontal k = false →
      ((init r (start w h)).cars k).vel0 = 0 ∧ ((init r (start w h)).cars k).vel1 ≠ 0) := by
  have hs : ∀ n, speed n ≠ 0 := fun n => by have := speed_bounds n; omega
  fin_cases k <;>
    simp +decide [init, start, initIntersection, initBase, initCar, scaleVel, horizontal,
      SCALE, hs]

/-- C10. Collisions can only happen inside the intersection. For every window size
`w x h` and all values of `rand()` in `init()`, take any later arrangement of the
cars in which each car has the extents and the lateral coordinate that `init()` gave
it, its coordinate along its axis of travel being arbitrary. Then two different cars
that overlap each other both overlap the intersection, and two cars that travel
along the same axis do not overlap each other; cars `0, 1, 4, 5` travel along the
first axis and cars `2, 3, 6, 7` along the second. -/
theorem collisions_inside_intersection (w h : Int) (r : Nat → Nat)
    (cars : Fin NCARS → Box)
    (hk : ∀ k, KeepsLane ((init r (start w h)).cars k) (cars k))
    (i j : Fin NCARS) (hij : i ≠ j) :
    (overlap (cars i) (cars j) = 1 →
      overlap (cars i) (init r (start w h)).intersection = 1 ∧
      overlap (cars j) (init r (start w h)).intersection = 1) ∧
    (horizontal i = horizontal j → overlap (cars i) (cars j) = 0) ∧
    (∀ k, (horizontal k = true →
        ((init r (start w h)).cars k).vel0 ≠ 0 ∧ ((init r (start w h)).cars k).vel1 = 0) ∧
      (horizontal k = false →
        ((init r (start w h)).cars k).vel0 = 0 ∧ ((init r (start w h)).cars k).vel1 ≠ 0)) := by
  have hi := init_lane w h r i (cars i) (hk i)
  have hj := init_lane w h r j (cars j) (hk j)
  have hbox := init_intersection_box w h r
  have hsame : horizontal i = horizontal j → overlap (cars i) (cars j) = 0 := by
    intro hh
    have hgap := laneOffset_gap i j hij hh
    cases hb : horizontal i
    · exact column_column_disjoint (hi.2 hb) (hj.2 (hh ▸ hb)) hgap
    · exact row_row_disjoint (hi.1 hb) (hj.1 (hh ▸ hb)) hgap
  refine ⟨fun hov => ?_, hsame, init_heading w h r⟩
  cases hbi : horizontal i <;> cases hbj : horizontal j
  · have := hsame (hbi.trans hbj.symm); omega
  · have hov' : overlap (cars j) (cars i) = 1 := by rw [overlap_comm]; exact hov
    exact (row_column_inside (hj.1 hbj) (hi.2 hbi) (laneOffset_abs j) (laneOffset_abs i)
      ⟨hbox.1, hbox.2.1, hbox.2.2.1, hbox.2.2.2⟩ hov').symm
  · exact row_column_inside (hi.1 hbi) (hj.2 hbj) (laneOffset_abs i) (laneOffset_abs j)
      ⟨hbox.1, hbox.2.1, hbox.2.2.1, hbox.2.2.2⟩ hov
  · have := hsame (hbi.trans hbj.symm); omega

/-! ## The collision scan `physics()` -/

theorem physicsPair_of_collides {cars : Fin NCARS → Box} {p : Fin NCARS × Fin NCARS}
    (g : Global) (h : collides cars p = true) :
    (physicsPair cars p.1 p.2 g).ncollisions = g.ncollisions + 1 ∧
      (physicsPair cars p.1 p.2 g).collision_flag = 1 ∧
      (physicsPair cars p.1 p.2 g).crash0 = ((p.1 : Nat) : Int) ∧
      (physicsPair cars p.1 p.2 g).crash1 = ((p.2 : Nat) : Int) := by
  simp only [collides, Bool.and_eq_true, decide_eq_true_eq] at h
  simp [physicsPair, h.1, h.2]

theorem physicsPair_of_not_collides {cars : Fin NCARS → Box} {p : Fin NCARS × Fin NCARS}
    (g : Global) (h : collides cars p = false) : physicsPair cars p.1 p.2 g = g := by
  simp only [collides, Bool.and_eq_false_iff, decide_eq_false_iff_not, not_not] at h
  unfold physicsPair
  rcases h with h | h
  · rw [if_pos h]
  · by_cases hij : p.1 = p.2
    · rw [if_pos hij]
    · rw [if_neg hij, if_neg (by simpa using h)]

/-- The scan over a list of ordered pairs: the counter grows by the number of pairs
that collide, and the flag and `crash` are those of the last pair that collides. -/
theorem scan_fold (cars : Fin NCARS → Box) (L : List (Fin NCARS × Fin NCARS)) :
    ∀ g0 : Global,
      (L.foldl (fun g p => physicsPair cars p.1 p.2 g) g0).ncollisions =
          g0.ncollisions + ((L.filter (collides cars)).length : Int) ∧
        (L.filter (collides cars) = [] →
          L.foldl (fun g p => physicsPair cars p.1 p.2 g) g0 = g0) ∧
        (L.filter (collides cars) ≠ [] →
          (L.foldl (fun g p => physicsPair cars p.1 p.2 g) g0).collision_flag = 1 ∧
          ∃ p ∈ L, collides cars p = true ∧
            (L.foldl (fun g p => physicsPair cars p.1 p.2 g) g0).crash0 = ((p.1 : Nat) : Int) ∧
            (L.foldl (fun g p => physicsPair cars p.1 p.2 g) g0).crash1 = ((p.2 : Nat) : Int)) := by
  induction L with
  | nil => intro g0; simp
  | cons p L ih =>
    intro g0
    rw [List.foldl_cons]
    obtain ⟨ih1, ih2, ih3⟩ := ih (physicsPair cars p.1 p.2 g0)
    cases hp : collides cars p
    · rw [physicsPair_of_not_collides g0 hp] at ih1 ih2 ih3 ⊢
      rw [List.filter_cons_of_neg (by simp [hp])]
      refine ⟨ih1, ih2, fun hne => ?_⟩
      obtain ⟨hf, q, hq, hrest⟩ := ih3 hne
      exact ⟨hf, q, List.mem_cons_of_mem _ hq, hrest⟩
    · obtain ⟨hn, hf, hc0, hc1⟩ := physicsPair_of_collides g0 hp
      rw [List.filter_cons_of_pos (by simp [hp])]
      refine ⟨?_, fun h => by simp at h, fun _ => ?_⟩
      · rw [ih1, hn, List.length_cons]; push_cast; ring
      · by_cases hrest : L.filter (collides cars) = []
        · rw [ih2 hrest]
          exact ⟨hf, p, List.mem_cons_self _ _, hp, hc0, hc1⟩
        · obtain ⟨hf', q, hq, hrest'⟩ := ih3 hrest
          exact ⟨hf', q, List.mem_cons_of_mem _ hq, hrest'⟩

/-- The two nested loops of `physics()` visit the pairs in `scanOrder`. -/
theorem physics_rows_eq_scan (cars : Fin NCARS → Box) (M : List (Fin NCARS)) :
    ∀ (L : List (Fin NCARS)) (g0 : Global),
      L.foldl (fun g i => M.foldl (fun g j => physicsPair cars i j g) g) g0 =
        (List.product L M).foldl (fun g p => physicsPair cars p.1 p.2 g) g0 := by
  intro L
  induction L with
  | nil => intro g0; simp [List.product]
  | cons i L ih =>
    intro g0
    rw [List.foldl_cons, ih]
    simp [List.product, List.foldl_append, List.foldl_map]

theorem physics_eq_scan (s : State) :
    (physics s).g = scanOrder.foldl (fun g p => physicsPair s.cars p.1 p.2 g)
      { s.g with collision_flag := 0 } := by
  unfold physics scanOrder
  exact physics_rows_eq_scan s.cars _ _ _

theorem collides_iff (cars : Fin NCARS → Box) (p : Fin NCARS × Fin NCARS) :
    collides cars p = true ↔ p.1 ≠ p.2 ∧ overlap (cars p.1) (cars p.2) = 1 := by
  simp only [collides, Bool.and_eq_true, decide_eq_true_eq]
  rcases overlap_eq_zero_or_one (cars p.1) (cars p.2) with h | h <;> simp [h]

theorem scanOrder_nodup : scanOrder.Nodup :=
  List.Nodup.product (List.nodup_finRange _) (List.nodup_finRange _)

theorem mem_scanOrder (p : Fin NCARS × Fin NCARS) : p ∈ scanOrder := by
  obtain ⟨a, b⟩ := p
  exact List.mem_product.2 ⟨List.mem_finRange a, List.mem_finRange b⟩

/-- Every unordered overlapping pair is met twice by the scan, once in each order. -/
theorem scan_count (cars : Fin NCARS → Box) :
    (scanOrder.filter (collides cars)).length = 2 * (overlappingPairs cars).card := by
  have hnd : (scanOrder.filter (collides cars)).Nodup := scanOrder_nodup.filter _
  rw [← List.toFinset_card_of_nodup hnd]
  have hsplit : (scanOrder.filter (collides cars)).toFinset =
      overlappingPairs cars ∪ (overlappingPairs cars).image Prod.swap := by
    ext ⟨a, b⟩
    simp only [List.mem_toFinset, List.mem_filter, mem_scanOrder, true_and, collides_iff,
      Finset.mem_union, Finset.mem_image, overlappingPairs, Finset.mem_filter,
      Finset.mem_univ, Prod.exists, Prod.swap_prod_mk, Prod.mk.injEq]
    constructor
    · rintro ⟨hne, hov⟩
      rcases lt_or_gt_of_ne hne with hlt | hgt
      · exact Or.inl ⟨hlt, hov⟩
      · exact Or.inr ⟨b, a, ⟨hgt, by rw [overlap_comm]; exact hov⟩, rfl, rfl⟩
    · rintro (⟨hlt, hov⟩ | ⟨c, d, ⟨hlt, hov⟩, rfl, rfl⟩)
      · exact ⟨ne_of_lt hlt, hov⟩
      · exact ⟨ne_of_gt hlt, by rw [overlap_comm]; exact hov⟩
  have hdisj : Disjoint (overlappingPairs cars) ((overlappingPairs cars).image Prod.swap) := by
    rw [Finset.disjoint_left]
    rintro ⟨a, b⟩ h1 h2
    simp only [overlappingPairs, Finset.mem_filter, Finset.mem_univ, true_and,
      Finset.mem_image, Prod.exists, Prod.swap_prod_mk, Prod.mk.injEq] at h1 h2
    obtain ⟨c, d, ⟨hlt, -⟩, rfl, rfl⟩ := h2
    exact absurd h1.1 (not_lt_of_gt hlt)
  rw [hsplit, Finset.card_union_of_disjoint hdisj,
    Finset.card_image_of_injective _ Prod.swap_injective]
  ring

/-- C7. The collision counter counts both orderings. For every configuration of the
eight cars, one call of `physics()` increases `g.ncollisions` by exactly twice the
number of unordered pairs of different cars that overlap. When exactly one unordered
pair `{a, b}` overlaps, the counter grows by `2`, `g.collision_flag` is `1` and
`{g.crash[0], g.crash[1]} = {a, b}`; when no pair overlaps, the counter is unchanged
and `g.collision_flag` is `0`. -/
theorem physics_collision_count (s : State) :
    (physics s).g.ncollisions =
        s.g.ncollisions + 2 * ((overlappingPairs s.cars).card : Int) ∧
      (∀ a b : Fin NCARS, overlappingPairs s.cars = {(a, b)} →
        (physics s).g.ncollisions = s.g.ncollisions + 2 ∧
        (physics s).g.collision_flag = 1 ∧
        ({(physics s).g.crash0, (physics s).g.crash1} : Finset Int) =
          {((a : Nat) : Int), ((b : Nat) : Int)}) ∧
      (overlappingPairs s.cars = ∅ →
        (physics s).g.ncollisions = s.g.ncollisions ∧
        (physics s).g.collision_flag = 0) := by
  obtain ⟨h1, h2, h3⟩ := scan_fold s.cars scanOrder { s.g with collision_flag := 0 }
  rw [← physics_eq_scan] at h1 h2 h3
  have hcount := scan_count s.cars
  have hn : (physics s).g.ncollisions =
      s.g.ncollisions + 2 * ((overlappingPairs s.cars).card : Int) := by
    rw [h1, hcount]; push_cast; rfl
  refine ⟨hn, fun a b hab => ?_, fun hnone => ?_⟩
  · have hcard : (overlappingPairs s.cars).card = 1 := by rw [hab]; simp
    have hne : scanOrder.filter (collides s.cars) ≠ [] := by
      intro h; rw [h, hcard] at hcount; simp at hcount
    obtain ⟨hf, p, -, hp, hc0, hc1⟩ := h3 hne
    refine ⟨by rw [hn, hcard]; norm_num, hf, ?_⟩
    rw [hc0, hc1]
    obtain ⟨p1, p2⟩ := p
    rw [collides_iff] at hp
    simp only at hp ⊢
    rcases lt_or_gt_of_ne hp.1 with hlt | hgt
    · have hmem : (p1, p2) ∈ overlappingPairs s.cars := by
        simp [overlappingPairs, hlt, hp.2]
      rw [hab, Finset.mem_singleton, Prod.mk.injEq] at hmem
      rw [hmem.1, hmem.2]
    · have hmem : (p2, p1) ∈ overlappingPairs s.cars := by
        simp only [overlappingPairs, Finset.mem_filter, Finset.mem_univ, true_and]
        exact ⟨hgt, by rw [overlap_comm]; exact hp.2⟩
      rw [hab, Finset.mem_singleton, Prod.mk.injEq] at hmem
      rw [hmem.1, hmem.2, Finset.pair_comm]
  · have hnil : scanOrder.filter (collides s.cars) = [] := by
      rw [hnone] at hcount
      simpa using hcount
    rw [h2 hnil]
    exact ⟨rfl, rfl⟩

/-! ## The wraparound -/

theorem speed_cast_cases (r : Nat) :
    ((speed r : Int) : ℚ) = 1 ∨ ((speed r : Int) : ℚ) = 2 ∨ ((speed r : Int) : ℚ) = 3 := by
  have h := speed_bounds r
  have : speed r = 1 ∨ speed r = 2 ∨ speed r = 3 := by omega
  rcases this with h | h | h <;> rw [h] <;> norm_num

theorem edgeCheck_top_first (g : Global) (r : Nat) (c : Box) :
    (edgeCheck g r .top c).pos0 = c.pos0 ∧ (edgeCheck g r .top c).vel0 = c.vel0 := by
  unfold edgeCheck
  split_ifs <;> simp [edgeScale, edgeVel, edgePos]

theorem edgeCheck_bottom_first (g : Global) (r : Nat) (c : Box) :
    (edgeCheck g r .bottom c).pos0 = c.pos0 ∧ (edgeCheck g r .bottom c).vel0 = c.vel0 := by
  unfold edgeCheck
  split_ifs <;> simp [edgeScale, edgeVel, edgePos]

theorem advance_first (c : Box) :
    (advance c).pos0 = c.pos0 + c.vel0 ∧ (advance c).vel0 = c.vel0 := by
  simp [advance, moveX, moveY]

/-- The check of the left edge on a car with negative velocity. -/
theorem edgeCheck_left_neg (g : Global) (r : Nat) (c : Box) (hv : c.vel0 < 0) :
    (c.pos0 < -20 →
      (edgeCheck g r .left c).pos0 = c.pos0 + ((g.xres : ℚ) + 40) ∧
      (edgeCheck g r .left c).vel0 = -((speed r : Int) : ℚ) * (2 / 10000)) ∧
    (¬ c.pos0 < -20 → edgeCheck g r .left c = c) := by
  constructor
  · intro hp
    simp [edgeCheck, edgeCond, hp, hv, edgeScale, edgeVel, edgePos, SCALE]
  · intro hp
    simp [edgeCheck, edgeCond, hp]

theorem edgeCheck_right_neg (g : Global) (r : Nat) (c : Box) (hv : c.vel0 < 0) :
    edgeCheck g r .right c = c := by
  simp [edgeCheck, edgeCond, not_lt.2 hv.le]

/-- The first coordinate and velocity after a tick are those after the advance, the
left check and the right check. -/
theorem tick_first (g : Global) (r : Edge → Nat) (c : Box) :
    (tick g r c).pos0 =
        (edgeCheck g (r .right) .right (edgeCheck g (r .top) .top
          (edgeCheck g (r .left) .left (advance c)))).pos0 ∧
      (tick g r c).vel0 =
        (edgeCheck g (r .right) .right (edgeCheck g (r .top) .top
          (edgeCheck g (r .left) .left (advance c)))).vel0 := by
  unfold tick wraparound
  exact edgeCheck_bottom_first g _ _

theorem edgeCheck_right_congr (g : Global) (r : Nat) (c d : Box)
    (hp : c.pos0 = d.pos0) (hv : c.vel0 = d.vel0) :
    (edgeCheck g r .right c).pos0 = (edgeCheck g r .right d).pos0 ∧
      (edgeCheck g r .right c).vel0 = (edgeCheck g r .right d).vel0 := by
  unfold edgeCheck edgeCond
  simp only [hp, hv]
  split_ifs <;> simp [edgeScale, edgeVel, edgePos, hp, hv]

/-- The first coordinate and velocity after a tick, without the top and bottom
checks. -/
theorem tick_first_lr (g : Global) (r : Edge → Nat) (c : Box) :
    (tick g r c).pos0 =
        (edgeCheck g (r .right) .right (edgeCheck g (r .left) .left (advance c))).pos0 ∧
      (tick g r c).vel0 =
        (edgeCheck g (r .right) .right (edgeCheck g (r .left) .left (advance c))).vel0 := by
  obtain ⟨h1, h2⟩ := tick_first g r c
  obtain ⟨t1, t2⟩ := edgeCheck_top_first g (r .top) (edgeCheck g (r .left) .left (advance c))
  obtain ⟨c1, c2⟩ := edgeCheck_right_congr g (r .right) _ _ t1 t2
  exact ⟨h1.trans c1, h2.trans c2⟩

/-- A tick of a car heading west: what becomes of its first coordinate. -/
theorem tick_west (g : Global) (r : Edge → Nat) (c : Box) (hv : c.vel0 < 0) :
    (c.pos0 + c.vel0 < -20 →
      (tick g r c).pos0 = c.pos0 + c.vel0 + ((g.xres : ℚ) + 40) ∧
      (tick g r c).vel0 = -((speed (r .left) : Int) : ℚ) * (2 / 10000)) ∧
    (¬ c.pos0 + c.vel0 < -20 →
      (tick g r c).pos0 = c.pos0 + c.vel0 ∧ (tick g r c).vel0 = c.vel0) := by
  obtain ⟨h1, h2⟩ := tick_first_lr g r c
  obtain ⟨a1, a2⟩ := advance_first c
  have hva : (advance c).vel0 < 0 := by rw [a2]; exact hv
  obtain ⟨l1, l2⟩ := edgeCheck_left_neg g (r .left) (advance c) hva
  rw [a1] at l1 l2
  constructor
  · intro hp
    obtain ⟨e1, e2⟩ := l1 hp
    have hneg : (edgeCheck g (r .left) .left (advance c)).vel0 < 0 := by
      rw [e2]
      rcases speed_cast_cases (r .left) with h | h | h <;> rw [h] <;> norm_num
    rw [edgeCheck_right_neg g _ _ hneg] at h1 h2
    rw [h1, h2, e1, e2]
    exact ⟨rfl, rfl⟩
  · intro hp
    rw [l2 hp, edgeCheck_right_neg g _ _ hva] at h1 h2
    rw [h1, h2, a1, a2]
    exact ⟨rfl, rfl⟩

/-- C8, as stated, fails: the car heading west at `x = -20` with velocity `-0.0002`
in a field of width `460` is below `-20` after its advance, and the wraparound puts
it at `479.9998`, which is `460 + 20 - 0.0002` and not `460 + 40 - d` for any
`0 <= d <= 0.0006`. -/
theorem left_wraparound_example :
    -20 ≤ edgeCar.pos0 ∧ (advance edgeCar).pos0 < -20 ∧
      (∀ r : Edge → Nat, (tick (start 460 460).g r edgeCar).pos0 = 4799998 / 10000 ∧
        ¬ ∃ d : ℚ, 0 ≤ d ∧ d ≤ 6 / 10000 ∧
          (tick (start 460 460).g r edgeCar).pos0 = 460 + 40 - d) := by
  have hv : edgeCar.vel0 < 0 := by norm_num [edgeCar]
  have hp : edgeCar.pos0 + edgeCar.vel0 < -20 := by norm_num [edgeCar]
  refine ⟨by norm_num [edgeCar], by rw [(advance_first _).1]; exact hp, fun r => ?_⟩
  have h := ((tick_west (start 460 460).g r edgeCar hv).1 hp).1
  have hx : (tick (start 460 460).g r edgeCar).pos0 = 4799998 / 10000 := by
    rw [h]; norm_num [edgeCar, start]
  refine ⟨hx, ?_⟩
  rintro ⟨d, -, hd1, hd⟩
  rw [hx] at hd
  linarith

/-- C8, amended. For every field width `W` and every car heading west (`vel.x` one
of `-0.0002`, `-0.0004`, `-0.0006`) whose advance has just taken its `x` from
`>= -20` to below `-20`, the wraparound of `traffic()` puts it at `x = W + 20 - d`
with `0 < d <= 0.0006`: the opposite edge `W + 20`, less the overshoot of at most one
tick. Its new velocity is `-(rand() % 3 + 1) * 0.0002`. -/
theorem left_wraparound_target (g : Global) (r : Edge → Nat) (c : Box)
    (hv : c.vel0 = -(2 / 10000) ∨ c.vel0 = -(4 / 10000) ∨ c.vel0 = -(6 / 10000))
    (hb : -20 ≤ c.pos0) (ha : (advance c).pos0 < -20) :
    ∃ d : ℚ, 0 < d ∧ d ≤ 6 / 10000 ∧ (tick g r c).pos0 = (g.xres : ℚ) + 20 - d ∧
      (tick g r c).vel0 = -((speed (r .left) : Int) : ℚ) * (2 / 10000) := by
  rw [(advance_first c).1] at ha
  have hneg : c.vel0 < 0 := by rcases hv with h | h | h <;> rw [h] <;> norm_num
  obtain ⟨h1, h2⟩ := (tick_west g r c hneg).1 ha
  refine ⟨-20 - (c.pos0 + c.vel0), by linarith, ?_, by rw [h1]; ring, h2⟩
  rcases hv with h | h | h <;> rw [h] <;> linarith

/-- The amended C8 at the car heading west at `x = -20` with velocity `-0.0002` in a
field of width `460`. -/
theorem left_wraparound_target_witness :
    ∃ d : ℚ, 0 < d ∧ d ≤ 6 / 10000 ∧
      (tick (start 460 460).g (fun _ => 0) edgeCar).pos0 =
        (((start 460 460).g.xres : Int) : ℚ) + 20 - d ∧
      (tick (start 460 460).g (fun _ => 0) edgeCar).vel0 =
        -((speed 0 : Int) : ℚ) * (2 / 10000) :=
  left_wraparound_target (start 460 460).g (fun _ => 0) edgeCar
    (Or.inl (by norm_num [edgeCar])) (by norm_num [edgeCar])
    (by rw [(advance_first _).1]; norm_num [edgeCar])

/-- The cars that `init()` sends along the first axis start within `[-40, W + 40]`
with a velocity on their heading. -/
theorem init_bounded (W h : Int) (hW : 0 ≤ W) (r : Nat → Nat) (k : Fin NCARS)
    (hk : horizontal k = true) : Bounded W (heading k) ((init r (start W h)).cars k) := by
  have hWq : (0 : ℚ) ≤ (W : ℚ) := by exact_mod_cast hW
  have hsp : ∀ n, speed n = 1 ∨ speed n = 2 ∨ speed n = 3 := fun n => by
    have := speed_bounds n; omega
  fin_cases k <;> simp +decide [horizontal] at hk <;>
    simp [init, start, initIntersection, initBase, initCar, scaleVel, Bounded, heading,
      SCALE] <;>
    refine ⟨by linarith, ?_⟩
  · rcases hsp (r 1) with h | h | h <;> simp [h] <;> norm_num
  · rcases hsp (r 3) with h | h | h <;> simp [h]
  · rcases hsp (r 9) with h | h | h <;> simp [h] <;> norm_num
  · rcases hsp (r 11) with h | h | h <;> simp [h]

/-! ## The pass counter -/

theorem advance_iterate (n : Nat) (c : Box) :
    (advance^[n] c).pos0 = c.pos0 + n * c.vel0 ∧ (advance^[n] c).pos1 = c.pos1 + n * c.vel1 ∧
      (advance^[n] c).vel0 = c.vel0 ∧ (advance^[n] c).vel1 = c.vel1 ∧
      (advance^[n] c).w = c.w ∧ (advance^[n] c).h = c.h := by
  induction n with
  | zero => simp
  | succ n ih =>
    obtain ⟨h1, h2, h3, h4, h5, h6⟩ := ih
    rw [Function.iterate_succ_apply']
    simp only [advance, moveX, moveY, h1, h2, h3, h4, h5, h6]
    push_cast
    refine ⟨by ring, by ring, trivial, trivial, trivial, trivial⟩

theorem setCar_same (k : Fin NCARS) (c : Box) (s : State) : (setCar k c s).cars k = c := by
  simp [setCar]

theorem Reachable.refl (s : Sys) : Reachable s s := ⟨[], rfl⟩

theorem run_append (a b : List (Fin NCARS × Nat)) :
    ∀ s s' : Sys, run a s = some s' → run (a ++ b) s = run b s' := by
  induction a with
  | nil => intro s s' h; simp only [run, Option.some.injEq] at h; subst h; rfl
  | cons x a ih =>
    intro s s' h
    obtain ⟨k, r⟩ := x
    simp only [run, List.cons_append] at h ⊢
    cases hstep : step k r s with
    | none => rw [hstep] at h; simp at h
    | some s1 =>
      rw [hstep] at h
      simp only at h ⊢
      exact ih s1 s' h

theorem Reachable.trans {a b c : Sys} (h1 : Reachable a b) (h2 : Reachable b c) :
    Reachable a c := by
  obtain ⟨l1, e1⟩ := h1
  obtain ⟨l2, e2⟩ := h2
  exact ⟨l1 ++ l2, by rw [run_append l1 l2 a b e1, e2]⟩

theorem Reachable.single {s s' : Sys} (k : Fin NCARS) (r : Nat) (h : step k r s = some s') :
    Reachable s s' := ⟨[(k, r)], by simp [run, h]⟩

/-- Induction over the reachable states. -/
theorem Reachable.invariant {P : Sys → Prop} {s0 s : Sys} (h : Reachable s0 s) (h0 : P s0)
    (hstep : ∀ (k : Fin NCARS) (r : Nat) (a b : Sys), P a → step k r a = some b → P b) :
    P s := by
  obtain ⟨l, hl⟩ := h
  induction l generalizing s0 with
  | nil => simp only [run, Option.some.injEq] at hl; subst hl; exact h0
  | cons x l ih =>
    obtain ⟨k, r⟩ := x
    simp only [run] at hl
    cases hs : step k r s0 with
    | none => rw [hs] at hl; simp at hl
    | some s1 =>
      rw [hs] at hl
      exact ih (hstep k r s0 s1 h0 hs) hl

/-- What a step of worker `j` does to the program counters and to the mutex. -/
theorem step_pc_waiter {j : Fin NCARS} {r : Nat} {s s' : Sys} (h : step j r s = some s') :
    (∀ k : Fin NCARS, k ≠ j → s'.pc k = s.pc k) ∧
      ((s.pc j = .lock ∧ s.waiter = none ∧ s'.waiter = some j ∧ s'.pc j = .inside) ∨
        (s.pc j = .unlock ∧ s'.waiter = none ∧ s'.pc j = .edgeTest .left) ∨
        ((s.pc j).guarded = (s'.pc j).guarded ∧ s.pc j ≠ .unlock ∧ s'.waiter = s.waiter)) := by
  unfold step at h
  cases hp : s.pc j <;> rw [hp] at h <;> simp only at h
  case lock =>
    cases hw : s.waiter with
    | none =>
      rw [hw] at h
      simp only [Option.some.injEq] at h
      subst h
      refine ⟨fun k hk => by simp [Sys.goto, Function.update_noteq hk], Or.inl ?_⟩
      simp [Sys.goto]
    | some x => rw [hw] at h; simp at h
  case unlock =>
    simp only [Option.some.injEq] at h
    subst h
    refine ⟨fun k hk => by simp [Sys.goto, Function.update_noteq hk], Or.inr (Or.inl ?_)⟩
    simp [Sys.goto]
  case enter =>
    split_ifs at h <;> simp only [Option.some.injEq] at h <;> subst h <;>
      exact ⟨fun k hk => by simp [Sys.goto, Function.update_noteq hk],
        Or.inr (Or.inr (by simp [Sys.goto, Pc.guarded]))⟩
  case inside =>
    split_ifs at h <;> simp only [Option.some.injEq] at h <;> subst h <;>
      exact ⟨fun k hk => by simp [Sys.goto, Function.update_noteq hk],
        Or.inr (Or.inr (by simp [Sys.goto, Pc.guarded]))⟩
  case edgeTest e =>
    split_ifs at h <;> simp only [Option.some.injEq] at h <;> subst h <;>
      exact ⟨fun k hk => by simp [Sys.goto, Function.update_noteq hk],
        Or.inr (Or.inr (by cases e <;> simp [Sys.goto, Pc.guarded, Edge.next]))⟩
  case edgeScale e =>
    simp only [Option.some.injEq] at h
    subst h
    exact ⟨fun k hk => by simp [Sys.goto, Function.update_noteq hk],
      Or.inr (Or.inr (by cases e <;> simp [Sys.goto, Pc.guarded, Edge.next]))⟩
  all_goals
    simp only [Option.some.injEq] at h
    subst h
    exact ⟨fun k hk => by simp [Sys.goto, Function.update_noteq hk],
      Or.inr (Or.inr (by simp [Sys.goto, Pc.guarded]))⟩

theorem step_lockInv {j : Fin NCARS} {r : Nat} {s s' : Sys} (hI : LockInv s)
    (h : step j r s = some s') : LockInv s' := by
  obtain ⟨hother, hcase⟩ := step_pc_waiter h
  intro k
  by_cases hk : k = j
  · subst hk
    rcases hcase with ⟨-, -, hw, hp⟩ | ⟨-, hw, hp⟩ | ⟨hg, -, hw⟩
    · simp [hw, hp, Pc.guarded]
    · simp [hw, hp, Pc.guarded]
    · rw [← hg, hw]; exact hI k
  · rw [hother k hk]
    rcases hcase with ⟨-, hn, hw, -⟩ | ⟨hp, hw, -⟩ | ⟨-, -, hw⟩
    · have := hI k
      rw [hn] at this
      rw [hw, this]
      simp [Ne.symm hk]
    · have hj := (hI j).1 (by rw [hp]; rfl)
      have := hI k
      rw [hj] at this
      rw [hw, this]
      simp [Ne.symm hk]
    · rw [hw]; exact hI k

theorem boot_lockInv (w h : Int) (r : Nat → Nat) : LockInv (boot w h r) := by
  intro k
  simp [boot, Pc.guarded]

/-- C1. Mutual exclusion of the guarded section. In every state that an interleaving
of the eight workers reaches from the start of `main` (each step is one worker
executing its next statement, `pthread_mutex_lock(&waiter)` being enabled only when
no worker holds the mutex), at most one worker is between its `pthread_mutex_lock`
and its `pthread_mutex_unlock`, and that worker is the holder of `waiter`; so at most
one car overlaps the intersection while its worker is inside the guarded crossing
loop. This holds for every window size and all values of `rand()`. -/
theorem mutual_exclusion (w h : Int) (r : Nat → Nat) (s : Sys)
    (hs : Reachable (boot w h r) s) :
    (∀ j k : Fin NCARS, (s.pc j).guarded = true → (s.pc k).guarded = true → j = k) ∧
      (∀ k : Fin NCARS, (s.pc k).guarded = true ↔ s.waiter = some k) ∧
      (∀ j k : Fin NCARS,
        ((s.pc j).guarded = true ∧ overlap (s.st.cars j) s.st.intersection = 1) →
        ((s.pc k).guarded = true ∧ overlap (s.st.cars k) s.st.intersection = 1) → j = k) := by
  have hI : LockInv s :=
    Reachable.invariant hs (boot_lockInv w h r) (fun _ _ _ _ ha hb => step_lockInv ha hb)
  have hmx : ∀ j k : Fin NCARS, (s.pc j).guarded = true → (s.pc k).guarded = true → j = k := by
    intro j k hj hk
    have h1 := (hI j).1 hj
    have h2 := (hI k).1 hk
    rw [h1] at h2
    exact Option.some.inj h2
  exact ⟨hmx, hI, fun j k hj hk => hmx j k hj.1 hk.1⟩

/-! ## The interleaved workers: two cars in the intersection -/

theorem place_pc (s : Sys) (k : Fin NCARS) (p : Pc) (c : Box) : (place s k p c).pc k = p := by
  simp [place, Sys.goto]

theorem place_pc_ne (s : Sys) (k j : Fin NCARS) (p : Pc) (c : Box) (h : j ≠ k) :
    (place s k p c).pc j = s.pc j := by
  simp [place, Sys.goto, Function.update_noteq h]

theorem place_car (s : Sys) (k : Fin NCARS) (p : Pc) (c : Box) :
    (place s k p c).st.cars k = c := by
  simp [place, Sys.goto, setCar]

theorem place_car_ne (s : Sys) (k j : Fin NCARS) (p : Pc) (c : Box) (h : j ≠ k) :
    (place s k p c).st.cars j = s.st.cars j := by
  simp [place, Sys.goto, setCar, Function.update_noteq h]

theorem place_place (s : Sys) (k : Fin NCARS) (p q : Pc) (c d : Box) :
    place (place s k p c) k q d = place s k q d := by
  simp [place, Sys.goto, setCar]

theorem place_self (s : Sys) (k : Fin NCARS) : place s k (s.pc k) (s.st.cars k) = s := by
  simp [place, Sys.goto, setCar]

/-- The statements of worker `k` that involve neither the mutex nor the counter. -/
theorem step_place (s : Sys) (k : Fin NCARS) (r : Nat) (c : Box) :
    step k r (place s k .delay c) = some (place s k .moveX c) ∧
    step k r (place s k .moveX c) = some (place s k .moveY (moveX c)) ∧
    step k r (place s k .moveY c) = some (place s k .enter (moveY c)) ∧
    (overlap c s.st.intersection = 1 →
      step k r (place s k .enter c) = some (place s k .lock c)) ∧
    (overlap c s.st.intersection = 0 →
      step k r (place s k .enter c) = some (place s k (.edgeTest .left) c)) ∧
    (∀ e : Edge, edgeCond s.st.g e c = false →
      step k r (place s k (.edgeTest e) c) = some (place s k e.next c)) := by
  refine ⟨?_, ?_, ?_, ?_, ?_, ?_⟩
  · simp [step, place, Sys.goto, setCar]
  · simp [step, place, Sys.goto, setCar]
  · simp [step, place, Sys.goto, setCar]
  · intro h
    simp [step, place, Sys.goto, setCar, h]
  · intro h
    simp [step, place, Sys.goto, setCar, h]
  · intro e h
    simp [step, place, Sys.goto, setCar, h]

/-- One full iteration of the loop of worker `k` whose car stays clear. -/
theorem lap (s : Sys) (k : Fin NCARS) (c : Box)
    (h : Clear s.st.g s.st.intersection (advance c)) :
    Reachable (place s k .delay c) (place s k .delay (advance c)) := by
  obtain ⟨hov, hedge⟩ := h
  have e1 := (step_place s k 0 c).1
  have e2 := (step_place s k 0 c).2.1
  have e3 := (step_place s k 0 (moveX c)).2.2.1
  have e4 := (step_place s k 0 (advance c)).2.2.2.2.1 hov
  have e5 := (step_place s k 0 (advance c)).2.2.2.2.2 .left (hedge .left)
  have e6 := (step_place s k 0 (advance c)).2.2.2.2.2 .top (hedge .top)
  have e7 := (step_place s k 0 (advance c)).2.2.2.2.2 .right (hedge .right)
  have e8 := (step_place s k 0 (advance c)).2.2.2.2.2 .bottom (hedge .bottom)
  exact (Reachable.single k 0 e1).trans <| (Reachable.single k 0 e2).trans <|
    (Reachable.single k 0 e3).trans <| (Reachable.single k 0 e4).trans <|
    (Reachable.single k 0 e5).trans <| (Reachable.single k 0 e6).trans <|
    (Reachable.single k 0 e7).trans (Reachable.single k 0 e8)

/-- Any number of iterations of the loop of worker `k` whose car stays clear. -/
theorem laps (s : Sys) (k : Fin NCARS) (c : Box) (n : Nat)
    (h : ∀ m : Nat, 1 ≤ m → m ≤ n → Clear s.st.g s.st.intersection (advance^[m] c)) :
    Reachable (place s k .delay c) (place s k .delay (advance^[n] c)) := by
  induction n with
  | zero => exact Reachable.refl _
  | succ n ih =>
    have h1 := ih (fun m h1 h2 => h m h1 (by omega))
    have h2 := lap s k (advance^[n] c) (by
      rw [← Function.iterate_succ_apply' advance n c]
      exact h (n + 1) (by omega) le_rfl)
    rw [← Function.iterate_succ_apply' advance n c] at h2
    exact h1.trans h2

/-- The iteration in which the advance takes the car of worker `k` into the
intersection: the worker arrives at `pthread_mutex_lock`. -/
theorem approach (s : Sys) (k : Fin NCARS) (c : Box)
    (h : overlap (advance c) s.st.intersection = 1) :
    Reachable (place s k .delay c) (place s k .lock (advance c)) := by
  have e1 := (step_place s k 0 c).1
  have e2 := (step_place s k 0 c).2.1
  have e3 := (step_place s k 0 (moveX c)).2.2.1
  have e4 := (step_place s k 0 (advance c)).2.2.2.1 h
  exact (Reachable.single k 0 e1).trans <| (Reachable.single k 0 e2).trans <|
    (Reachable.single k 0 e3).trans (Reachable.single k 0 e4)

/-- Worker `k` runs alone from the head of its loop until its car enters the
intersection, after `n` clear advances and one more. -/
theorem drive (s : Sys) (k : Fin NCARS) (n : Nat) (hpc : s.pc k = .delay)
    (hclear : ∀ m : Nat, 1 ≤ m → m ≤ n →
      Clear s.st.g s.st.intersection (advance^[m] (s.st.cars k)))
    (hin : overlap (advance^[n + 1] (s.st.cars k)) s.st.intersection = 1) :
    Reachable s (place s k .lock (advance^[n + 1] (s.st.cars k))) := by
  have h0 : place s k .delay (s.st.cars k) = s := by rw [← hpc]; exact place_self s k
  have h1 := laps s k (s.st.cars k) n hclear
  rw [Function.iterate_succ_apply'] at hin ⊢
  have h2 := approach s k _ hin
  rw [h0] at h1
  exact h1.trans h2

theorem advance_iterate_eq (n : Nat) (c : Box) :
    advance^[n] c = { c with pos0 := c.pos0 + n * c.vel0, pos1 := c.pos1 + n * c.vel1 } := by
  obtain ⟨h1, h2, h3, h4, h5, h6⟩ := advance_iterate n c
  cases hc : advance^[n] c
  rw [hc] at h1 h2 h3 h4 h5 h6
  simp only at h1 h2 h3 h4 h5 h6
  simp [h1, h2, h3, h4, h5, h6]

theorem boot2_car0 :
    boot2.st.cars 0 =
      { pos0 := 490, pos1 := 215, vel0 := -(6 / 10000), vel1 := 0, w := 34, h := 18 } := by
  have h460 : Int.tdiv 460 2 = 230 := by decide
  simp [boot2, boot, init, start, initIntersection, initBase, initCar, scaleVel, speed,
    jitter, SCALE, h460]
  norm_num

theorem boot2_car1 :
    boot2.st.cars 1 =
      { pos0 := -40, pos1 := 245, vel0 := 6 / 10000, vel1 := 0, w := 34, h := 18 } := by
  have h460 : Int.tdiv 460 2 = 230 := by decide
  simp [boot2, boot, init, start, initIntersection, initBase, initCar, scaleVel, speed,
    jitter, SCALE, h460]
  norm_num

theorem boot2_intersection :
    boot2.st.intersection =
      { pos0 := 230, pos1 := 230, vel0 := 0, vel1 := 0, w := 112, h := 112 } := by
  have h460 : Int.tdiv 460 2 = 230 := by decide
  simp [boot2, boot, init, start, initIntersection, h460]

theorem boot2_field : boot2.st.g.xres = 460 ∧ boot2.st.g.yres = 460 := ⟨rfl, rfl⟩

theorem shr1_thirty_four : shr1 34 = 17 := by rw [shr1_eq_div]; norm_num

/-- Car `0` of `boot2` is clear during its first `311666` advances and overlaps the
intersection after the next one. -/
theorem car0_path (g : Global) (hg : g.xres = 460 ∧ g.yres = 460) :
    (∀ m : Nat, 1 ≤ m → m ≤ 311666 →
      Clear g boot2.st.intersection (advance^[m] (boot2.st.cars 0))) ∧
    advance^[311666 + 1] (boot2.st.cars 0) =
      { boot2.st.cars 0 with pos0 := 3029998 / 10000 } ∧
    overlap { boot2.st.cars 0 with pos0 := 3029998 / 10000 } boot2.st.intersection = 1 := by
  refine ⟨fun m _ hm => ?_, ?_, ?_⟩
  · have hmq : (m : ℚ) ≤ 311666 := by exact_mod_cast hm
    rw [advance_iterate_eq, boot2_car0, boot2_intersection]
    constructor
    · rw [← overlap_ne_one_iff, ne_eq, overlap_eq_one_iff_abs]
      simp only [shr1_thirty_four, shr1_intersection]
      rintro ⟨hx, -⟩
      rw [abs_le] at hx
      push_cast at hx
      linarith [hx.2]
    · intro e
      cases e <;> simp [edgeCond, hg.1, hg.2] <;> first | linarith | (intro _; norm_num)
  · rw [advance_iterate_eq, boot2_car0]
    norm_num
  · rw [boot2_car0, boot2_intersection, overlap_eq_one_iff_abs]
    simp only [shr1_thirty_four, shr1_intersection, shr1_eighteen]
    norm_num [abs_le]

/-- Car `1` of `boot2` is clear during its first `328333` advances and overlaps the
intersection after the next one. -/
theorem car1_path (g : Global) (hg : g.xres = 460 ∧ g.yres = 460) :
    (∀ m : Nat, 1 ≤ m → m ≤ 328333 →
      Clear g boot2.st.intersection (advance^[m] (boot2.st.cars 1))) ∧
    advance^[328333 + 1] (boot2.st.cars 1) =
      { boot2.st.cars 1 with pos0 := 1570004 / 10000 } ∧
    overlap { boot2.st.cars 1 with pos0 := 1570004 / 10000 } boot2.st.intersection = 1 := by
  refine ⟨fun m _ hm => ?_, ?_, ?_⟩
  · have hmq : (m : ℚ) ≤ 328333 := by exact_mod_cast hm
    rw [advance_iterate_eq, boot2_car1, boot2_intersection]
    constructor
    · rw [← overlap_ne_one_iff, ne_eq, overlap_eq_one_iff_abs]
      simp only [shr1_thirty_four, shr1_intersection]
      rintro ⟨hx, -⟩
      rw [abs_le] at hx
      push_cast at hx
      linarith [hx.1]
    · intro e
      cases e <;> simp [edgeCond, hg.1, hg.2] <;> first | linarith | (intro _; norm_num)
  · rw [advance_iterate_eq, boot2_car1]
    norm_num
  · rw [boot2_car1, boot2_intersection, overlap_eq_one_iff_abs]
    simp only [shr1_thirty_four, shr1_intersection, shr1_eighteen]
    norm_num [abs_le]

theorem sys_eq (a b : Sys) (h1 : a.st = b.st) (h2 : a.pc = b.pc) (h3 : a.waiter = b.waiter) :
    a = b := by
  cases a; cases b; simp_all

/-- The state `jamState` is reached from the start of `main`: worker `0` runs alone
until its car enters the intersection and takes the mutex, then worker `1` runs alone
until its car enters the intersection. -/
theorem jamState_reachable : Reachable boot2 jamState := by
  obtain ⟨c0clear, c0eq, c0in⟩ := car0_path boot2.st.g boot2_field
  have d0 := drive boot2 0 311666 rfl c0clear (by rw [c0eq]; exact c0in)
  rw [c0eq] at d0
  obtain ⟨S1, hS1⟩ : ∃ S1 : Sys, S1 =
      { place boot2 0 .inside { boot2.st.cars 0 with pos0 := 3029998 / 10000 } with
        waiter := some 0 } := ⟨_, rfl⟩
  have hlock : step 0 0 (place boot2 0 .lock { boot2.st.cars 0 with pos0 := 3029998 / 10000 })
      = some S1 := by
    rw [hS1]
    simp [step, place, Sys.goto, setCar, boot2, boot]
  have hpc : S1.pc 1 = .delay := by rw [hS1]; simp [place, Sys.goto, boot2, boot]
  have hcar : S1.st.cars 1 = boot2.st.cars 1 := by
    rw [hS1]; simp [place, Sys.goto, setCar]
  have hint : S1.st.intersection = boot2.st.intersection := by rw [hS1]; rfl
  have hg : S1.st.g.xres = 460 ∧ S1.st.g.yres = 460 := by rw [hS1]; exact ⟨rfl, rfl⟩
  obtain ⟨c1clear, c1eq, c1in⟩ := car1_path S1.st.g hg
  have d1 := drive S1 1 328333 hpc (by rw [hcar, hint]; exact c1clear)
    (by rw [hcar, hint, c1eq]; exact c1in)
  rw [hcar, c1eq] at d1
  have hjam : place S1 1 .lock { boot2.st.cars 1 with pos0 := 1570004 / 10000 } = jamState := by
    rw [hS1]
    apply sys_eq
    · simp only [place, Sys.goto, jamState]
    · funext k
      fin_cases k <;> simp +decide [place, Sys.goto, jamState, Function.update, boot2, boot]
    · simp only [place, Sys.goto, jamState]
  rw [hjam] at d1
  exact (d0.trans (Reachable.single 0 0 hlock)).trans d1

/-- C2, as stated, fails. In the `460x460` run in which every `rand()` of `init()`
returns `2`, the state `jamState` is reachable, and in it the two different cars `0`
and `1` both overlap the intersection: car `0` holds the mutex inside the guarded
section, car `1` has advanced into the box and waits at `pthread_mutex_lock`. -/
theorem two_cars_in_intersection :
    Reachable (boot 460 460 (fun _ => 2)) jamState ∧ (0 : Fin NCARS) ≠ 1 ∧
      overlap (jamState.st.cars 0) jamState.st.intersection = 1 ∧
      overlap (jamState.st.cars 1) jamState.st.intersection = 1 ∧
      jamState.pc 0 = .inside ∧ jamState.pc 1 = .lock ∧ jamState.waiter = some 0 := by
  obtain ⟨-, -, c0in⟩ := car0_path boot2.st.g boot2_field
  obtain ⟨-, -, c1in⟩ := car1_path boot2.st.g boot2_field
  refine ⟨jamState_reachable, by decide, ?_, ?_, rfl, rfl, rfl⟩
  · have h : jamState.st.cars 0 = { boot2.st.cars 0 with pos0 := 3029998 / 10000 } := by
      simp [jamState, setCar]
    rw [h]; exact c0in
  · have h : jamState.st.cars 1 = { boot2.st.cars 1 with pos0 := 1570004 / 10000 } := by
      simp [jamState, setCar]
    rw [h]; exact c1in

set_option linter.unusedTactic false
set_option linter.unreachableTactic false

/-! ## The interleaved workers: who overlaps the intersection -/

/-- On its lane a car overlaps the intersection exactly when it is within reach of
it along its axis of travel. -/
theorem overlap_iff_in {hz : Bool} {g : Global} {i c : Box} (hR : Roomy g i)
    (hS : Static hz i c) : overlap c i = 1 ↔ In hz i c := by
  obtain ⟨r1, r2, -⟩ := hR
  rw [overlap_eq_one_iff]
  cases hz <;> simp only [Static, In, alongPos, alongHalf, centre, if_true, if_false,
    Bool.false_eq_true] at hS ⊢
  · obtain ⟨s1, s2, s3, s4, s5, -⟩ := hS
    rw [s1, r1, r2]
    push_cast
    constructor
    · rintro ⟨-, -, h3, h4⟩
      exact ⟨by linarith, by linarith⟩
    · rintro ⟨h1, h2⟩
      exact ⟨by linarith, by linarith, by linarith, by linarith⟩
  · obtain ⟨s1, s2, s3, s4, s5, -⟩ := hS
    rw [s1, r1, r2]
    push_cast
    constructor
    · rintro ⟨h1, h2, -, -⟩
      exact ⟨by linarith, by linarith⟩
    · rintro ⟨h1, h2⟩
      exact ⟨by linarith, by linarith, by linarith, by linarith⟩

/-! Each lemma `inv_...` below takes one statement of `traffic()`: a car that is as
`carInv` says at that statement is as `carInv` says at the next one. The proofs go
through the four headings (and the four edges); what is left is linear arithmetic. -/

set_option maxHeartbeats 1000000 in
theorem inv_moveX (hz neg : Bool) (g : Global) (i : Box) (c : Box)
    (hR : Roomy g i) (h : carInv hz neg g i .moveX c) :
    carInv hz neg g i .moveY (moveX c) := by
  obtain ⟨r1, r2, r3, r4, r5, r6⟩ := hR
  cases hz <;> cases neg <;>
    simp [carInv, Static, Vel, VelRaw, Tight, Near, Beyond, In, Deep, alongPos, alongVel,
      alongHalf, centre, field, sgn, Edge.idx, ownEdge, Edge.next, moveX] at h ⊢ <;>
    casesm* _ ∧ _ <;>
    (repeat' apply And.intro) <;>
    first
      | assumption
      | linarith
      | (intro _; linarith)
      | (intro h1; have h2 := ‹_ → _› (by linarith); linarith)
      | (exfalso; linarith)

set_option maxHeartbeats 1000000 in
theorem inv_moveY (hz neg : Bool) (g : Global) (i : Box) (c : Box)
    (hR : Roomy g i) (h : carInv hz neg g i .moveY c) :
    carInv hz neg g i .enter (moveY c) := by
  obtain ⟨r1, r2, r3, r4, r5, r6⟩ := hR
  cases hz <;> cases neg <;>
    simp [carInv, Static, Vel, VelRaw, Tight, Near, Beyond, In, Deep, alongPos, alongVel,
      alongHalf, centre, field, sgn, Edge.idx, ownEdge, Edge.next, moveY] at h ⊢ <;>
    casesm* _ ∧ _ <;>
    (repeat' apply And.intro) <;>
    first
      | assumption
      | linarith
      | (intro _; linarith)
      | (intro h1; have h2 := ‹_ → _› (by linarith); linarith)
      | (exfalso; linarith)

set_option maxHeartbeats 1000000 in
theorem inv_enter_in (hz neg : Bool) (g : Global) (i : Box) (c : Box)
    (hR : Roomy g i) (hin : In hz i c) (h : carInv hz neg g i .enter c) :
    carInv hz neg g i .lock c := by
  obtain ⟨r1, r2, r3, r4, r5, r6⟩ := hR
  cases hz <;> cases neg <;>
    simp [carInv, Static, Vel, VelRaw, Tight, Near, Beyond, In, Deep, alongPos, alongVel,
      alongHalf, centre, field, sgn, Edge.idx, ownEdge, Edge.next] at h hin ⊢ <;>
    casesm* _ ∧ _ <;>
    (repeat' apply And.intro) <;>
    first
      | assumption
      | linarith
      | (intro _; linarith)
      | (exfalso; linarith)

set_option maxHeartbeats 1000000 in
theorem inv_enter_out (hz neg : Bool) (g : Global) (i : Box) (c : Box)
    (hR : Roomy g i) (hin : ¬ In hz i c) (h : carInv hz neg g i .enter c) :
    carInv hz neg g i (.edgeTest .left) c := by
  obtain ⟨r1, r2, r3, r4, r5, r6⟩ := hR
  cases hz <;> cases neg <;>
    simp [carInv, Static, Vel, VelRaw, Tight, Near, Beyond, In, Deep, alongPos, alongVel,
      alongHalf, centre, field, sgn, Edge.idx, ownEdge, Edge.next] at h hin ⊢ <;>
    casesm* _ ∧ _ <;>
    (repeat' apply And.intro) <;>
    first
      | assumption
      | linarith
      | (intro _; linarith)
      | (exfalso; linarith)

set_option maxHeartbeats 1000000 in
theorem inv_lock (hz neg : Bool) (g : Global) (i : Box) (c : Box)
    (hR : Roomy g i) (h : carInv hz neg g i .lock c) :
    carInv hz neg g i .inside c := by
  obtain ⟨r1, r2, r3, r4, r5, r6⟩ := hR
  cases hz <;> cases neg <;>
    simp [carInv, Static, Vel, VelRaw, Tight, Near, Beyond, In, Deep, alongPos, alongVel,
      alongHalf, centre, field, sgn, Edge.idx, ownEdge, Edge.next] at h ⊢ <;>
    casesm* _ ∧ _ <;>
    (repeat' apply And.intro) <;>
    first
      | assumption
      | linarith
      | (intro _; linarith)
      | (exfalso; linarith)

set_option maxHeartbeats 1000000 in
theorem inv_inside_in (hz neg : Bool) (g : Global) (i : Box) (c : Box)
    (hR : Roomy g i) (hin : In hz i c) (h : carInv hz neg g i .inside c) :
    carInv hz neg g i .delayIn c := by
  obtain ⟨r1, r2, r3, r4, r5, r6⟩ := hR
  cases hz <;> cases neg <;>
    simp [carInv, Static, Vel, VelRaw, Tight, Near, Beyond, In, Deep, alongPos, alongVel,
      alongHalf, centre, field, sgn, Edge.idx, ownEdge, Edge.next] at h hin ⊢ <;>
    casesm* _ ∧ _ <;>
    (repeat' apply And.intro) <;>
    first
      | assumption
      | linarith
      | (intro _; linarith)
      | (exfalso; linarith)

set_option maxHeartbeats 1000000 in
theorem inv_inside_out (hz neg : Bool) (g : Global) (i : Box) (c : Box)
    (hR : Roomy g i) (hin : ¬ In hz i c) (h : carInv hz neg g i .inside c) :
    carInv hz neg g i .count c := by
  obtain ⟨r1, r2, r3, r4, r5, r6⟩ := hR
  cases hz <;> cases neg <;>
    simp [carInv, Static, Vel, VelRaw, Tight, Near, Beyond, In, Deep, alongPos, alongVel,
      alongHalf, centre, field, sgn, Edge.idx, ownEdge, Edge.next] at h hin ⊢ <;>
    casesm* _ ∧ _ <;>
    (repeat' apply And.intro) <;>
    first
      | assumption
      | linarith
      | (intro _; linarith)
      | (exfalso; linarith)

set_option maxHeartbeats 1000000 in
theorem inv_moveXIn (hz neg : Bool) (g : Global) (i : Box) (c : Box)
    (hR : Roomy g i) (h : carInv hz neg g i .moveXIn c) :
    carInv hz neg g i .moveYIn (moveX c) := by
  obtain ⟨r1, r2, r3, r4, r5, r6⟩ := hR
  cases hz <;> cases neg <;>
    simp [carInv, Static, Vel, VelRaw, Tight, Near, Beyond, In, Deep, alongPos, alongVel,
      alongHalf, centre, field, sgn, Edge.idx, ownEdge, Edge.next, moveX] at h ⊢ <;>
    casesm* _ ∧ _ <;>
    (repeat' apply And.intro) <;>
    first
      | assumption
      | linarith
      | (intro _; linarith)
      | (exfalso; linarith)

set_option maxHeartbeats 1000000 in
theorem inv_moveYIn (hz neg : Bool) (g : Global) (i : Box) (c : Box)
    (hR : Roomy g i) (h : carInv hz neg g i .moveYIn c) :
    carInv hz neg g i .inside (moveY c) := by
  obtain ⟨r1, r2, r3, r4, r5, r6⟩ := hR
  cases hz <;> cases neg <;>
    simp [carInv, Static, Vel, VelRaw, Tight, Near, Beyond, In, Deep, alongPos, alongVel,
      alongHalf, centre, field, sgn, Edge.idx, ownEdge, Edge.next, moveY] at h ⊢ <;>
    casesm* _ ∧ _ <;>
    (repeat' apply And.intro) <;>
    first
      | assumption
      | linarith
      | (intro _; linarith)
      | (exfalso; linarith)

set_option maxHeartbeats 1000000 in
theorem inv_unlock (hz neg : Bool) (g : Global) (i : Box) (c : Box)
    (hR : Roomy g i) (h : carInv hz neg g i .unlock c) :
    carInv hz neg g i (.edgeTest .left) c := by
  obtain ⟨r1, r2, r3, r4, r5, r6⟩ := hR
  cases hz <;> cases neg <;>
    simp [carInv, Static, Vel, VelRaw, Tight, Near, Beyond, In, Deep, alongPos, alongVel,
      alongHalf, centre, field, sgn, Edge.idx, ownEdge, Edge.next] at h ⊢ <;>
    casesm* _ ∧ _ <;>
    (repeat' apply And.intro) <;>
    first
      | assumption
      | linarith
      | (intro _; linarith)
      | (exfalso; linarith)

set_option maxHeartbeats 1000000 in
theorem inv_edgeTest_true (hz neg : Bool) (g : Global) (i : Box) (e : Edge) (c : Box)
    (hR : Roomy g i) (hcond : edgeCond g e c = true) (h : carInv hz neg g i (.edgeTest e) c) :
    carInv hz neg g i (.edgePos e) c := by
  obtain ⟨r1, r2, r3, r4, r5, r6⟩ := hR
  cases hz <;> cases neg <;> cases e <;>
    simp [carInv, Static, Vel, VelRaw, Tight, Near, Beyond, In, Deep, alongPos, alongVel,
      alongHalf, centre, field, sgn, Edge.idx, ownEdge, Edge.next, edgeCond] at h hcond ⊢ <;>
    casesm* _ ∧ _ <;>
    (repeat' apply And.intro) <;>
    first
      | assumption
      | linarith
      | (intro _; linarith)
      | (exfalso; linarith)

set_option maxHeartbeats 1000000 in
theorem inv_edgeTest_false (hz neg : Bool) (g : Global) (i : Box) (e : Edge) (c : Box)
    (hR : Roomy g i) (hcond : edgeCond g e c = false) (h : carInv hz neg g i (.edgeTest e) c) :
    carInv hz neg g i e.next c := by
  obtain ⟨r1, r2, r3, r4, r5, r6⟩ := hR
  cases hz <;> cases neg <;> cases e <;>
    simp [carInv, Static, Vel, VelRaw, Tight, Near, Beyond, In, Deep, alongPos, alongVel,
      alongHalf, centre, field, sgn, Edge.idx, ownEdge, Edge.next, edgeCond] at h hcond ⊢ <;>
    casesm* _ ∧ _ <;>
    (repeat' apply And.intro) <;>
    first
      | assumption
      | linarith
      | (intro _; linarith)
      | (apply le_of_not_lt; intro hlt; have := hcond hlt; linarith)

set_option maxHeartbeats 1000000 in
theorem inv_edgePos (hz neg : Bool) (g : Global) (i : Box) (e : Edge) (c : Box)
    (hR : Roomy g i) (h : carInv hz neg g i (.edgePos e) c) :
    carInv hz neg g i (.edgeVel e) (edgePos g e c) := by
  obtain ⟨r1, r2, r3, r4, r5, r6⟩ := hR
  cases hz <;> cases neg <;> cases e <;>
    simp [carInv, Static, Vel, VelRaw, Tight, Near, Beyond, In, Deep, alongPos, alongVel,
      alongHalf, centre, field, sgn, Edge.idx, ownEdge, Edge.next, edgePos] at h ⊢ <;>
    casesm* _ ∧ _ <;>
    (repeat' apply And.intro) <;>
    first
      | assumption
      | linarith
      | (intro _; linarith)
      | (exfalso; linarith)

set_option maxHeartbeats 1000000 in
theorem inv_edgeVel (hz neg : Bool) (g : Global) (i : Box) (e : Edge) (c : Box) (r : Nat)
    (hR : Roomy g i) (h : carInv hz neg g i (.edgeVel e) c) :
    carInv hz neg g i (.edgeScale e) (edgeVel r e c) := by
  obtain ⟨r1, r2, r3, r4, r5, r6⟩ := hR
  have hsp : (1 : ℚ) ≤ ((speed r : Int) : ℚ) ∧ ((speed r : Int) : ℚ) ≤ 3 := by
    exact_mod_cast speed_bounds r
  obtain ⟨hsp1, hsp2⟩ := hsp
  cases hz <;> cases neg <;> cases e <;>
    simp [carInv, Static, Vel, VelRaw, Tight, Near, Beyond, In, Deep, alongPos, alongVel,
      alongHalf, centre, field, sgn, Edge.idx, ownEdge, Edge.next, edgeVel] at h ⊢ <;>
    casesm* _ ∧ _ <;>
    (repeat' apply And.intro) <;>
    first
      | assumption
      | linarith
      | (intro _; linarith)
      | (exfalso; linarith)

set_option maxHeartbeats 1000000 in
theorem inv_edgeScale (hz neg : Bool) (g : Global) (i : Box) (e : Edge) (c : Box)
    (hR : Roomy g i) (h : carInv hz neg g i (.edgeScale e) c) :
    carInv hz neg g i e.next (edgeScale e c) := by
  obtain ⟨r1, r2, r3, r4, r5, r6⟩ := hR
  cases hz <;> cases neg <;> cases e <;>
    simp [carInv, Static, Vel, VelRaw, Tight, Near, Beyond, In, Deep, alongPos, alongVel,
      alongHalf, centre, field, sgn, Edge.idx, ownEdge, Edge.next, edgeScale, SCALE] at h ⊢ <;>
    casesm* _ ∧ _ <;>
    (repeat' apply And.intro) <;>
    first
      | assumption
      | linarith
      | (intro _; linarith)
      | (exfalso; linarith)

theorem inv_same (hz neg : Bool) (g : Global) (i c : Box) :
    (carInv hz neg g i .delay c → carInv hz neg g i .moveX c) ∧
      (carInv hz neg g i .delayIn c → carInv hz neg g i .slowIn c) ∧
      (carInv hz neg g i .slowIn c → carInv hz neg g i .moveXIn c) ∧
      (carInv hz neg g i .count c → carInv hz neg g i .unlock c) :=
  ⟨fun h => h, fun h => h, fun h => h, fun h => h⟩

/-- What is known of a car depends on the globals only through the size of the
field. -/
theorem carInv_congr (hz neg : Bool) {g g' : Global} (i : Box) (p : Pc) (c : Box)
    (hx : g'.xres = g.xres) (hy : g'.yres = g.yres) (h : carInv hz neg g i p c) :
    carInv hz neg g' i p c := by
  cases p <;>
    simpa [carInv, Tight, Near, Beyond, field, hx, hy] using h

/-- Every statement of `traffic()` keeps what is known of the car of its worker. -/
theorem effect_inv (hz neg : Bool) (g : Global) (i : Box) (r : Nat) (p : Pc) (c : Box)
    (hR : Roomy g i) (h : carInv hz neg g i p c) :
    carInv hz neg g i (effect g i r p c).1 (effect g i r p c).2 := by
  have hin : carInv hz neg g i .enter c ∨ carInv hz neg g i .inside c →
      (overlap c i ≠ 0 ↔ In hz i c) := by
    intro hc
    have hS : Static hz i c := by rcases hc with hc | hc <;> exact hc.1
    rw [← overlap_iff_in hR hS]
    rcases overlap_eq_zero_or_one c i with h0 | h0 <;> simp [h0]
  cases p with
  | delay => exact (inv_same hz neg g i c).1 h
  | moveX => exact inv_moveX hz neg g i c hR h
  | moveY => exact inv_moveY hz neg g i c hR h
  | enter =>
    by_cases ho : overlap c i ≠ 0
    · simp only [effect, if_pos ho]
      exact inv_enter_in hz neg g i c hR ((hin (Or.inl h)).1 ho) h
    · simp only [effect, if_neg ho]
      exact inv_enter_out hz neg g i c hR (fun hI => ho ((hin (Or.inl h)).2 hI)) h
  | lock => exact inv_lock hz neg g i c hR h
  | inside =>
    by_cases ho : overlap c i ≠ 0
    · simp only [effect, if_pos ho]
      exact inv_inside_in hz neg g i c hR ((hin (Or.inr h)).1 ho) h
    · simp only [effect, if_neg ho]
      exact inv_inside_out hz neg g i c hR (fun hI => ho ((hin (Or.inr h)).2 hI)) h
  | delayIn => exact (inv_same hz neg g i c).2.1 h
  | slowIn => exact (inv_same hz neg g i c).2.2.1 h
  | moveXIn => exact inv_moveXIn hz neg g i c hR h
  | moveYIn => exact inv_moveYIn hz neg g i c hR h
  | count => exact (inv_same hz neg g i c).2.2.2 h
  | unlock => exact inv_unlock hz neg g i c hR h
  | edgeTest e =>
    cases hcond : edgeCond g e c
    · simp only [effect, hcond, Bool.false_eq_true, if_false]
      exact inv_edgeTest_false hz neg g i e c hR hcond h
    · simp only [effect, hcond, if_true]
      exact inv_edgeTest_true hz neg g i e c hR hcond h
  | edgePos e => exact inv_edgePos hz neg g i e c hR h
  | edgeVel e => exact inv_edgeVel hz neg g i e c r hR h
  | edgeScale e => exact inv_edgeScale hz neg g i e c hR h

/-- A step of worker `j` is the `effect` of its statement on its own car; it leaves
the other workers and cars, the intersection and the size of the field as they
are. -/
theorem step_effect {j : Fin NCARS} {r : Nat} {s s' : Sys} (h : step j r s = some s') :
    s'.st.g.xres = s.st.g.xres ∧ s'.st.g.yres = s.st.g.yres ∧
      s'.st.intersection = s.st.intersection ∧
      (∀ k : Fin NCARS, k ≠ j → s'.pc k = s.pc k ∧ s'.st.cars k = s.st.cars k) ∧
      s'.pc j = (effect s.st.g s.st.intersection r (s.pc j) (s.st.cars j)).1 ∧
      s'.st.cars j = (effect s.st.g s.st.intersection r (s.pc j) (s.st.cars j)).2 := by
  unfold step at h
  cases hp : s.pc j <;> rw [hp] at h <;> simp only at h
  case lock =>
    cases hw : s.waiter with
    | none =>
      rw [hw] at h
      simp only [Option.some.injEq] at h
      subst h
      exact ⟨rfl, rfl, rfl,
        fun k hk => by simp [Sys.goto, Function.update_noteq hk],
        by simp [Sys.goto, effect], by simp [Sys.goto, effect]⟩
    | some x => rw [hw] at h; simp at h
  case enter =>
    split_ifs at h with ho <;> simp only [Option.some.injEq] at h <;> subst h <;>
      exact ⟨rfl, rfl, rfl,
        fun k hk => by simp [Sys.goto, Function.update_noteq hk],
        by simp [Sys.goto, effect, ho], by simp [Sys.goto, effect, ho]⟩
  case inside =>
    split_ifs at h with ho <;> simp only [Option.some.injEq] at h <;> subst h <;>
      exact ⟨rfl, rfl, rfl,
        fun k hk => by simp [Sys.goto, Function.update_noteq hk],
        by simp [Sys.goto, effect, ho], by simp [Sys.goto, effect, ho]⟩
  case edgeTest e =>
    split_ifs at h with ho <;> simp only [Option.some.injEq] at h <;> subst h <;>
      exact ⟨rfl, rfl, rfl,
        fun k hk => by simp [Sys.goto, Function.update_noteq hk],
        by simp [Sys.goto, effect, ho], by simp [Sys.goto, effect, ho]⟩
  all_goals
    simp only [Option.some.injEq] at h
    subst h
    exact ⟨rfl, rfl, rfl,
      fun k hk => by simp [Sys.goto, setCar, countPass, Function.update_noteq hk],
      by simp [Sys.goto, effect], by simp [Sys.goto, effect, setCar, countPass]⟩

theorem step_laneInv {j : Fin NCARS} {r : Nat} {s s' : Sys} (hI : LaneInv s)
    (h : step j r s = some s') : LaneInv s' := by
  obtain ⟨hL, hR, hC⟩ := hI
  obtain ⟨hx, hy, hi, hother, hpc, hcar⟩ := step_effect h
  have hR' : Roomy s'.st.g s'.st.intersection := by
    unfold Roomy at hR ⊢
    rw [hx, hy, hi]; exact hR
  refine ⟨step_lockInv hL h, hR', fun k => ?_⟩
  apply carInv_congr _ _ _ _ _ hx hy
  rw [hi]
  by_cases hk : k = j
  · subst hk
    rw [hpc, hcar]
    exact effect_inv _ _ _ _ r _ _ hR (hC k)
  · rw [(hother k hk).1, (hother k hk).2]
    exact hC k

theorem tdiv_two_bounds (w : Int) (hw : 110 ≤ w) :
    (55 : ℚ) ≤ ((Int.tdiv w 2 : Int) : ℚ) ∧ ((Int.tdiv w 2 : Int) : ℚ) + 55 ≤ (w : ℚ) := by
  have h : 55 ≤ Int.tdiv w 2 ∧ Int.tdiv w 2 + 55 ≤ w := by
    rw [Int.tdiv_eq_ediv (by omega) (by omega)]
    omega
  exact ⟨by exact_mod_cast h.1, by exact_mod_cast h.2⟩

theorem boot_roomy (w h : Int) (hw : 110 ≤ w) (hh : 110 ≤ h) (r : Nat → Nat) :
    Roomy (boot w h r).st.g (boot w h r).st.intersection := by
  obtain ⟨a1, a2⟩ := tdiv_two_bounds w hw
  obtain ⟨b1, b2⟩ := tdiv_two_bounds h hh
  simp only [Roomy, boot, init, start, initIntersection, shr1_intersection]
  exact ⟨trivial, trivial, a1, a2, b1, b2⟩

set_option maxHeartbeats 1000000 in
/-- At the start of `main` every car is on its lane, clear of the intersection. -/
theorem boot_carInv (w h : Int) (hw : 110 ≤ w) (hh : 110 ≤ h) (r : Nat → Nat)
    (k : Fin NCARS) :
    carInv (horizontal k) (negative k) (boot w h r).st.g (boot w h r).st.intersection
      ((boot w h r).pc k) ((boot w h r).st.cars k) := by
  obtain ⟨a1, a2⟩ := tdiv_two_bounds w hw
  obtain ⟨b1, b2⟩ := tdiv_two_bounds h hh
  have hlen : ∀ n : Nat, (16 : ℚ) ≤ ((shr1 (18 + jitter n) : Int) : ℚ) ∧
      ((shr1 (18 + jitter n) : Int) : ℚ) ≤ 17 := fun n =>
    ⟨by exact_mod_cast (shr1_length n).1, by exact_mod_cast (shr1_length n).2⟩
  have hsp : ∀ n : Nat, (1 : ℚ) ≤ ((speed n : Int) : ℚ) ∧ ((speed n : Int) : ℚ) ≤ 3 :=
    fun n => by exact_mod_cast speed_bounds n
  have hspi : ∀ n : Nat, 0 < speed n := fun n => by have := speed_bounds n; omega
  have hwq : (110 : ℚ) ≤ (w : ℚ) := by exact_mod_cast hw
  have hhq : (110 : ℚ) ≤ (h : ℚ) := by exact_mod_cast hh
  fin_cases k <;>
    simp +decide [boot, init, start, initIntersection, initBase, initCar, scaleVel, SCALE,
      carInv, Static, Vel, Tight, In, alongPos, alongVel, alongHalf, centre, field, sgn,
      horizontal, negative, heading, shr1_eighteen] <;>
    (repeat' apply And.intro) <;>
    first
      | exact hspi _
      | linarith [(hlen (r 0)).1, (hlen (r 0)).2, (hsp (r 1)).1, (hsp (r 1)).2]
      | linarith [(hlen (r 2)).1, (hlen (r 2)).2, (hsp (r 3)).1, (hsp (r 3)).2]
      | linarith [(hlen (r 4)).1, (hlen (r 4)).2, (hsp (r 5)).1, (hsp (r 5)).2]
      | linarith [(hlen (r 6)).1, (hlen (r 6)).2, (hsp (r 7)).1, (hsp (r 7)).2]
      | linarith [(hlen (r 8)).1, (hlen (r 8)).2, (hsp (r 9)).1, (hsp (r 9)).2]
      | linarith [(hlen (r 10)).1, (hlen (r 10)).2, (hsp (r 11)).1, (hsp (r 11)).2]
      | linarith [(hlen (r 12)).1, (hlen (r 12)).2, (hsp (r 13)).1, (hsp (r 13)).2]
      | linarith [(hlen (r 14)).1, (hlen (r 14)).2, (hsp (r 15)).1, (hsp (r 15)).2]
      | (intro _; linarith [(hlen (r 0)).2, (hlen (r 2)).2, (hlen (r 4)).2, (hlen (r 6)).2,
          (hlen (r 8)).2, (hlen (r 10)).2, (hlen (r 12)).2, (hlen (r 14)).2])

theorem boot_laneInv (w h : Int) (hw : 110 ≤ w) (hh : 110 ≤ h) (r : Nat → Nat) :
    LaneInv (boot w h r) :=
  ⟨boot_lockInv w h r, boot_roomy w h hw hh r, boot_carInv w h hw hh r⟩

/-- A car whose worker is neither entering nor in the crossing loop is clear of the
intersection. -/
theorem carInv_clear (hz neg : Bool) (g : Global) (i : Box) (p : Pc) (c : Box)
    (hR : Roomy g i) (h : carInv hz neg g i p c)
    (hov : overlap c i = 1) :
    p.entering = true ∨
      (p = .inside ∨ p = .delayIn ∨ p = .slowIn ∨ p = .moveXIn ∨ p = .moveYIn) := by
  cases p <;> simp only [Pc.entering, true_or, or_true, Bool.false_eq_true, false_or,
    reduceCtorEq, or_self, or_false]
  all_goals
    exfalso
    first
      | exact h.2.2.2 ((overlap_iff_in hR h.1).1 hov)
      | exact h.2.2.1 ((overlap_iff_in hR h.1).1 hov)
      | exact h.2.2.2.2 ((overlap_iff_in hR h.2.1).1 hov)
      | exact h.2.2.2.2.2 ((overlap_iff_in hR h.2.1).1 hov)

/-- C2, amended. In every state that an interleaving of the eight workers reaches
from the start of `main` in a window of at least `110x110` (`main` opens `460x460`),
a car that overlaps the intersection either has just advanced into the box and has
not yet acquired the mutex (its worker is at the second advance statement, at the
test `if (overlap(...))` or at `pthread_mutex_lock`), or its worker is inside the
crossing loop and holds the mutex. Hence at most one car overlaps the intersection
apart from the cars that have advanced into the box and wait to enter. -/
theorem single_occupancy (w h : Int) (hw : 110 ≤ w) (hh : 110 ≤ h) (r : Nat → Nat)
    (s : Sys) (hs : Reachable (boot w h r) s) :
    (∀ k : Fin NCARS, overlap (s.st.cars k) s.st.intersection = 1 →
      (s.pc k).entering = true ∨
        ((s.pc k = .inside ∨ s.pc k = .delayIn ∨ s.pc k = .slowIn ∨ s.pc k = .moveXIn ∨
            s.pc k = .moveYIn) ∧ s.waiter = some k)) ∧
    (∀ j k : Fin NCARS,
      overlap (s.st.cars j) s.st.intersection = 1 → (s.pc j).entering = false →
      overlap (s.st.cars k) s.st.intersection = 1 → (s.pc k).entering = false → j = k) := by
  have hI : LaneInv s :=
    Reachable.invariant hs (boot_laneInv w h hw hh r) (fun _ _ _ _ ha hb => step_laneInv ha hb)
  obtain ⟨hL, hR, hC⟩ := hI
  have key : ∀ k : Fin NCARS, overlap (s.st.cars k) s.st.intersection = 1 →
      (s.pc k).entering = true ∨
        ((s.pc k = .inside ∨ s.pc k = .delayIn ∨ s.pc k = .slowIn ∨ s.pc k = .moveXIn ∨
            s.pc k = .moveYIn) ∧ s.waiter = some k) := by
    intro k hov
    rcases carInv_clear _ _ _ _ _ _ hR (hC k) hov with h1 | h2
    · exact Or.inl h1
    · refine Or.inr ⟨h2, (hL k).1 ?_⟩
      rcases h2 with h | h | h | h | h <;> rw [h] <;> rfl
  refine ⟨key, fun j k hj hjn hk hkn => ?_⟩
  rcases key j hj with h1 | ⟨-, h2⟩
  · rw [hjn] at h1; exact absurd h1 (by decide)
  · rcases key k hk with h3 | ⟨-, h4⟩
    · rw [hkn] at h3; exact absurd h3 (by decide)
    · rw [h2] at h4; exact Option.some.inj h4

/-! ## The interleaved workers: no two cars collide -/

set_option maxHeartbeats 1000000 in
/-- No statement of `traffic()` moves a car off its lane. -/
theorem effect_lateral (hz neg : Bool) (g : Global) (i : Box) (r : Nat) (p : Pc) (c : Box)
    (h : carInv hz neg g i p c) :
    lateral hz i (effect g i r p c).2 = lateral hz i c := by
  cases p with
  | enter => simp only [effect]; split_ifs <;> rfl
  | inside => simp only [effect]; split_ifs <;> rfl
  | edgeTest e => simp only [effect]; split_ifs <;> rfl
  | edgePos e =>
    cases hz <;> cases neg <;> cases e <;>
      simp [carInv, ownEdge, effect, edgePos, lateral] at h ⊢
  | edgeVel e => cases hz <;> cases e <;> simp [effect, edgeVel, lateral]
  | edgeScale e => cases hz <;> cases e <;> simp [effect, edgeScale, lateral]
  | moveX =>
    cases hz <;> simp [carInv, Static, effect, moveX, lateral] at h ⊢
    simp [h.1.2.2.2.2.2]
  | moveY =>
    cases hz <;> simp [carInv, Static, effect, moveY, lateral] at h ⊢
    simp [h.1.2.2.2.2.2]
  | moveXIn =>
    cases hz <;> simp [carInv, Static, effect, moveX, lateral] at h ⊢
    simp [h.1.2.2.2.2.2]
  | moveYIn =>
    cases hz <;> simp [carInv, Static, effect, moveY, lateral] at h ⊢
    simp [h.1.2.2.2.2.2]
  | _ => rfl

theorem step_latInv {j : Fin NCARS} {r : Nat} {s s' : Sys} (hI : LaneInv s) (hlat : LatInv s)
    (h : step j r s = some s') : LatInv s' := by
  obtain ⟨-, hi, hother, -, hcar⟩ := (step_effect h).2
  intro k
  rw [hi]
  by_cases hk : k = j
  · subst hk
    rw [hcar, effect_lateral _ _ _ _ r _ _ (hI.2.2 k)]
    exact hlat k
  · rw [(hother k hk).2]
    exact hlat k

theorem boot_latInv (w h : Int) (r : Nat → Nat) : LatInv (boot w h r) := by
  intro k
  fin_cases k <;>
    simp +decide [boot, init, start, initIntersection, initBase, initCar, scaleVel, lateral,
      horizontal, laneOffset] <;>
    norm_num

/-- A car that travels along the first axis and a car that travels along the second
axis, each on its lane, overlap each other only when both are at least `1` within
reach of the intersection. -/
theorem cross_deep {i cj ck : Box} (hj : Static true i cj)
    (hk : Static false i ck) (hov : overlap cj ck = 1) :
    Deep true i cj ∧ Deep false i ck := by
  rw [overlap_eq_one_iff_abs] at hov
  simp only [Static, if_true, if_false, Bool.false_eq_true] at hj hk
  obtain ⟨j1, j2, j3, j4, j5, -⟩ := hj
  obtain ⟨k1, k2, k3, k4, k5, -⟩ := hk
  obtain ⟨hx, hy⟩ := hov
  rw [j1, k1] at *
  rw [abs_le] at hx hy
  push_cast at hx hy
  simp only [Deep, alongPos, alongHalf, centre, if_true, if_false, Bool.false_eq_true]
  exact ⟨⟨by linarith, by linarith⟩, ⟨by linarith, by linarith⟩⟩

/-- Two cars that travel along the same axis on lanes at least `21` apart do not
overlap. -/
theorem same_clear (hz : Bool) {i cj ck : Box} (hj : Static hz i cj) (hk : Static hz i ck)
    (hgap : 21 ≤ |lateral hz i cj - lateral hz i ck|) : overlap cj ck = 0 := by
  rw [← overlap_ne_one_iff, ne_eq, overlap_eq_one_iff_abs]
  rintro ⟨hx, hy⟩
  cases hz <;> simp only [Static, lateral, if_true, if_false, Bool.false_eq_true] at hj hk hgap
  · rw [hj.1, hk.1] at hx
    have : cj.pos0 - i.pos0 - (ck.pos0 - i.pos0) = cj.pos0 - ck.pos0 := by ring
    rw [this] at hgap
    norm_num at hx
    linarith
  · rw [hj.1, hk.1] at hy
    have : cj.pos1 - i.pos1 - (ck.pos1 - i.pos1) = cj.pos1 - ck.pos1 := by ring
    rw [this] at hgap
    norm_num at hy
    linarith

/-- A car that is at least `1` within reach of the intersection belongs to a worker
inside the crossing loop. -/
theorem carInv_deep (hz neg : Bool) (g : Global) (i : Box) (p : Pc) (c : Box)
    (h : carInv hz neg g i p c) (hd : Deep hz i c) : p.guarded = true := by
  have hin : In hz i c := by
    obtain ⟨d1, d2⟩ := hd
    exact ⟨by linarith, by linarith⟩
  cases p <;> simp only [Pc.guarded] <;> exfalso
  all_goals
    first
      | exact h.2.2.2 hin
      | exact h.2.2.2.2 hd
      | exact h.2.2.2.2 hin
      | exact h.2.2.1 hin
      | exact h.2.2.2.2.2 hin
      | (cases hz <;> simp only [carInv, if_true, if_false, Bool.false_eq_true] at h <;>
          first | exact h.2.2.2 hin | exact h.2.2.2 hd)

/-- The mutex stops the collisions: in every state that an interleaving of the eight
workers reaches from the start of `main` in a window of at least `110x110`, no two
different cars overlap each other. -/
theorem no_collision (w h : Int) (hw : 110 ≤ w) (hh : 110 ≤ h) (r : Nat → Nat) (s : Sys)
    (hs : Reachable (boot w h r) s) (j k : Fin NCARS) (hjk : j ≠ k) :
    overlap (s.st.cars j) (s.st.cars k) = 0 := by
  have hI : LaneInv s ∧ LatInv s :=
    @Reachable.invariant (fun s => LaneInv s ∧ LatInv s) _ _ hs
      ⟨boot_laneInv w h hw hh r, boot_latInv w h r⟩
      (fun _ _ _ _ ha hb => ⟨step_laneInv ha.1 hb, step_latInv ha.1 ha.2 hb⟩)
  obtain ⟨⟨hL, hR, hC⟩, hlat⟩ := hI
  have hSj : Static (horizontal j) s.st.intersection (s.st.cars j) := by
    have := hC j
    cases hp : s.pc j <;> rw [hp] at this <;>
      first | exact this.1 | exact this.2.1
  have hSk : Static (horizontal k) s.st.intersection (s.st.cars k) := by
    have := hC k
    cases hp : s.pc k <;> rw [hp] at this <;>
      first | exact this.1 | exact this.2.1
  by_cases hh2 : horizontal j = horizontal k
  · rw [← hh2] at hSk
    apply same_clear (horizontal j) hSj hSk
    rw [hlat j]
    have := hlat k
    rw [← hh2] at this
    rw [this]
    exact laneOffset_gap j k hjk hh2
  · rw [← overlap_ne_one_iff]
    intro hov
    have hboth : Deep (horizontal j) s.st.intersection (s.st.cars j) ∧
        Deep (horizontal k) s.st.intersection (s.st.cars k) := by
      cases hj : horizontal j <;> cases hk : horizontal k
      · rw [hj, hk] at hh2; exact absurd rfl hh2
      · rw [hj] at hSj; rw [hk] at hSk
        exact (cross_deep hSk hSj (by rw [overlap_comm]; exact hov)).symm
      · rw [hj] at hSj; rw [hk] at hSk
        exact cross_deep hSj hSk hov
      · rw [hj, hk] at hh2; exact absurd rfl hh2
    have gj := carInv_deep _ _ _ _ _ _ (hC j) hboth.1
    have gk := carInv_deep _ _ _ _ _ _ (hC k) hboth.2
    have h1 := (hL j).1 gj
    have h2 := (hL k).1 gk
    rw [h1] at h2
    exact hjk (Option.some.inj h2)

/-! ## One worker, statement by statement -/

theorem frame_frame (s : Sys) (k : Fin NCARS) (p q : Pc) (c d : Box) (n m : Int)
    (w v : Option (Fin NCARS)) :
    frame (frame s k p c n w) k q d m v = frame s k q d m v := by
  simp [frame]

theorem boot2_table (k : Fin NCARS) :
    boot2.st.cars k = if k = 0 then { crashTable 0 with pos0 := 490 }
      else if k = 2 then { crashTable 2 with pos1 := -30 } else crashTable k := by
  have h460 : Int.tdiv 460 2 = 230 := by decide
  fin_cases k <;>
    simp +decide [boot2, boot, init, start, initIntersection, initBase, initCar, scaleVel,
      speed, jitter, SCALE, h460, crashTable] <;>
    norm_num

theorem crashCars_table (k : Fin NCARS) : crashCars k = crashTable k := by
  unfold crashCars
  rw [boot2_table 0, boot2_table 2, boot2_table k]
  fin_cases k <;> simp +decide [crashTable]

set_option maxHeartbeats 4000000 in
theorem crashTable_overlap (a b : Fin NCARS) :
    overlap (crashTable a) (crashTable b) = 1 ↔
      a = b ∨ (a = 0 ∧ b = 2) ∨ (a = 2 ∧ b = 0) := by
  rw [overlap_eq_one_iff_abs]
  fin_cases a <;> fin_cases b <;>
    simp +decide [crashTable, shr1_thirty_four, shr1_eighteen, abs_le] <;>
    norm_num

theorem crash_pairs : overlappingPairs crashState.cars = {(0, 2)} := by
  ext ⟨a, b⟩
  simp only [overlappingPairs, crashState, Finset.mem_filter, Finset.mem_univ, true_and,
    Finset.mem_singleton, Prod.mk.injEq, crashCars_table, crashTable_overlap]
  constructor
  · rintro ⟨hlt, h | h | h⟩
    · exact absurd h (ne_of_lt hlt)
    · exact h
    · rw [h.1, h.2] at hlt; exact absurd hlt (by decide)
  · rintro ⟨rfl, rfl⟩
    exact ⟨by decide, Or.inr (Or.inl ⟨rfl, rfl⟩)⟩

theorem crashCars_keepsLane (k : Fin NCARS) :
    KeepsLane ((init (fun _ => 2) (start 460 460)).cars k) (crashCars k) := by
  have h : (init (fun _ => 2) (start 460 460)).cars k = boot2.st.cars k := rfl
  rw [h, boot2_table, crashCars_table]
  fin_cases k <;> simp +decide [KeepsLane, crashTable]

/-- C10 at the cars `crashCars` of the `460x460` run: cars `0` and `2` overlap each
other, and both overlap the intersection. -/
theorem collisions_inside_intersection_witness :
    (∀ k, KeepsLane ((init (fun _ => 2) (start 460 460)).cars k) (crashCars k)) ∧
      overlap (crashCars 0) (crashCars 2) = 1 ∧
      overlap (crashCars 0) (init (fun _ => 2) (start 460 460)).intersection = 1 ∧
      overlap (crashCars 2) (init (fun _ => 2) (start 460 460)).intersection = 1 :=
  have hov : overlap (crashCars 0) (crashCars 2) = 1 := by
    rw [crashCars_table, crashCars_table, crashTable_overlap]
    exact Or.inr (Or.inl ⟨rfl, rfl⟩)
  ⟨crashCars_keepsLane, hov,
    (collisions_inside_intersection 460 460 (fun _ => 2) crashCars crashCars_keepsLane 0 2
      (by decide)).1 hov⟩

/-- C7 at the state `crashState`, in which exactly the pair of cars `0` and `2`
overlaps: one call of `physics()` adds `2` to the counter, sets the flag and records
the two cars. -/
theorem physics_collision_count_witness :
    overlappingPairs crashState.cars = {(0, 2)} ∧
      (physics crashState).g.ncollisions = crashState.g.ncollisions + 2 ∧
      (physics crashState).g.collision_flag = 1 ∧
      ({(physics crashState).g.crash0, (physics crashState).g.crash1} : Finset Int) =
        {(((0 : Fin NCARS) : Nat) : Int), (((2 : Fin NCARS) : Nat) : Int)} :=
  ⟨crash_pairs, (physics_collision_count crashState).2.1 0 2 crash_pairs⟩

/-- C1 at the state `jamState` of the `460x460` run, in which worker `0` is inside
the guarded section and worker `1` waits at `pthread_mutex_lock`. -/
theorem mutual_exclusion_witness :
    Reachable (boot 460 460 (fun _ => 2)) jamState ∧
      (∀ j k : Fin NCARS, (jamState.pc j).guarded = true → (jamState.pc k).guarded = true →
        j = k) ∧
      (∀ k : Fin NCARS, (jamState.pc k).guarded = true ↔ jamState.waiter = some k) ∧
      (∀ j k : Fin NCARS,
        ((jamState.pc j).guarded = true ∧
          overlap (jamState.st.cars j) jamState.st.intersection = 1) →
        ((jamState.pc k).guarded = true ∧
          overlap (jamState.st.cars k) jamState.st.intersection = 1) → j = k) :=
  ⟨jamState_reachable, mutual_exclusion 460 460 (fun _ => 2) jamState jamState_reachable⟩

/-- The amended C2 at the state `jamState` of the `460x460` run: of the two cars that
overlap the intersection there, car `0` holds the mutex and car `1` is entering. -/
theorem single_occupancy_witness :
    (110 : Int) ≤ 460 ∧ Reachable (boot 460 460 (fun _ => 2)) jamState ∧
      (∀ k : Fin NCARS, overlap (jamState.st.cars k) jamState.st.intersection = 1 →
        (jamState.pc k).entering = true ∨
          ((jamState.pc k = .inside ∨ jamState.pc k = .delayIn ∨ jamState.pc k = .slowIn ∨
              jamState.pc k = .moveXIn ∨ jamState.pc k = .moveYIn) ∧
            jamState.waiter = some k)) ∧
      (∀ j k : Fin NCARS,
        overlap (jamState.st.cars j) jamState.st.intersection = 1 →
        (jamState.pc j).entering = false →
        overlap (jamState.st.cars k) jamState.st.intersection = 1 →
        (jamState.pc k).entering = false → j = k) :=
  ⟨by decide, jamState_reachable,
    single_occupancy 460 460 (by decide) (by decide) (fun _ => 2) jamState jamState_reachable⟩

/-! ## A car that leaves the field in a small window -/

end CarCrash
